import Mathlib

/-!
Verification of the netlist compiler and simulation-result decoder of the
CircuitSimulator repository.

The development shallowly embeds the TypeScript sources
`server/utils/simple-spice.ts` and `server/utils/ngspice-interface.ts`.
JavaScript numbers are modelled as exact rationals (`ℚ`); the decimal
string-to-number conversions of the source (`Number`, `parseFloat`,
`parseInt`) are modelled as exact rational readers of the same grammars.
JavaScript objects used as string-keyed maps are modelled as association
lists in insertion order, with assignment overwriting in place.
Regular-expression matching is embedded by deterministic scanners that
implement the greedy/backtracking semantics of the concrete patterns
appearing in the source.
-/

namespace CircuitSim

/- The Batteries rational operations are `@[irreducible]`, which blocks the
`decide`-based evaluation of the executable definitions below; restore the
default reducibility for them within this development. -/
attribute [local semireducible] Rat.mul Rat.add Rat.sub Rat.inv

set_option maxRecDepth 100000

/-! ## JavaScript string primitives -/

/-- Whitespace characters recognised by the JavaScript `\s` class and
    `String.prototype.trim` (the ASCII subset; the net names and engine
    output handled by the repository contain no exotic Unicode spaces). -/
def jsWs (c : Char) : Bool :=
  c = ' ' ∨ c = '\t' ∨ c = '\n' ∨ c = '\r' ∨ c = '\x0b' ∨ c = '\x0c'

/-- `String.prototype.trim`. -/
def jsTrim (cs : List Char) : List Char :=
  ((cs.dropWhile jsWs).reverse.dropWhile jsWs).reverse

/-- `\w` character class: `[A-Za-z0-9_]`. -/
def isWordChar (c : Char) : Bool :=
  c.isAlpha ∨ c.isDigit ∨ c = '_'

/-- Case-insensitive prefix test for a literal pattern (ASCII folding),
    as performed by a `/i` regular expression on a literal. -/
def ciStarts : List Char → List Char → Bool
  | p :: ps, c :: cs => (Char.toLower c = Char.toLower p) && ciStarts ps cs
  | ps, _ => ps.isEmpty

/-- Plain literal prefix test. -/
def litStarts : List Char → List Char → Bool
  | p :: ps, c :: cs => (c = p) && litStarts ps cs
  | ps, _ => ps.isEmpty

/-- Naive substring test (used for `String.prototype.includes`). -/
def containsSub (hay pat : List Char) : Bool :=
  match hay with
  | [] => litStarts pat []
  | _ :: rest => litStarts pat hay || containsSub rest pat

/-- ASCII upper-casing of a char list (`String.prototype.toUpperCase`;
    the repository's net names are ASCII). -/
def upperChars (cs : List Char) : List Char := cs.map Char.toUpper

/-- ASCII lower-casing of a char list (`String.prototype.toLowerCase`). -/
def lowerChars (cs : List Char) : List Char := cs.map Char.toLower

/-! ## JavaScript number reading, modelled over ℚ -/

/-- Numeric value of a decimal digit. -/
def digitVal (c : Char) : Nat := c.toNat - 48

/-- Value of a list of decimal digits (`parseInt` on an all-digit string). -/
def digitsToNat (ds : List Char) : Nat :=
  ds.foldl (fun a c => 10 * a + digitVal c) 0

/-- Exact value of a decimal literal broken into sign, integer digits,
    fraction digits and signed exponent digits. -/
def decValue (neg : Bool) (int frac : List Char) (expNeg : Bool) (exp : List Char) : ℚ :=
  let mag : ℚ := (digitsToNat int : ℚ) + (digitsToNat frac : ℚ) / (10 : ℚ) ^ frac.length
  let e : ℤ := if expNeg then -(digitsToNat exp : ℤ) else (digitsToNat exp : ℤ)
  (if neg then -mag else mag) * (10 : ℚ) ^ e

/-- Splits an optional `[+-]` sign from the front of a char list,
    returning whether the value is negated and the rest. -/
def splitSign : List Char → Bool × List Char
  | [] => (false, [])
  | c :: rest =>
    if c = '-' then (true, rest)
    else if c = '+' then (false, rest)
    else (false, c :: rest)

/-- Reads an exponent part `[eE][+-]?\d+` from the front of a char list.
    Returns `none` (and consumes nothing) unless the whole form is present,
    matching the greedy-but-optional exponent groups of the source's
    regular expressions. -/
def readExp : List Char → Option (Bool × List Char × List Char)
  | c :: rest =>
    if c = 'e' ∨ c = 'E' then
      let (en, r1) := splitSign rest
      let ds := r1.takeWhile Char.isDigit
      if ds = [] then none else some (en, ds, r1.drop ds.length)
    else none
  | [] => none

/-- `Number(s)` on a string already known to contain no whitespace:
    the full-string decimal grammar `[+-]?(\d+(\.\d*)?|\.\d+)([eE][+-]?\d+)?`,
    with the empty string converting to `0`.  Returns `none` for `NaN`.
    (Hex, octal and `Infinity` literals do not occur in the values the
    repository feeds to `Number`.) -/
def jsNumber (cs : List Char) : Option ℚ :=
  if cs = [] then some 0 else
  let (neg, r0) := splitSign cs
  let int := r0.takeWhile Char.isDigit
  let r1 := r0.drop int.length
  let (frac, r2) :=
    match r1 with
    | '.' :: rest => (rest.takeWhile Char.isDigit, rest.drop (rest.takeWhile Char.isDigit).length)
    | _ => ([], r1)
  let hasDot := r1.headD ' ' = '.'
  if int = [] ∧ (¬hasDot ∨ frac = []) then none
  else
    match readExp r2 with
    | some (en, eds, r3) => if r3 = [] then some (decValue neg int frac en eds) else none
    | none => if r2 = [] then some (decValue neg int frac false []) else none

/-- `parseFloat(s)`: reads the longest valid decimal-literal prefix,
    `none` for `NaN` (no valid prefix). -/
def jsParseFloat (cs : List Char) : Option ℚ :=
  let s := cs.dropWhile jsWs
  let (neg, r0) := splitSign s
  let int := r0.takeWhile Char.isDigit
  let r1 := r0.drop int.length
  let (frac, r2) :=
    match r1 with
    | '.' :: rest =>
      let ds := rest.takeWhile Char.isDigit
      if int = [] ∧ ds = [] then ([], r1) else (ds, rest.drop ds.length)
    | _ => ([], r1)
  if int = [] ∧ frac = [] then none
  else
    match readExp r2 with
    | some (en, eds, _) => some (decValue neg int frac en eds)
    | none => some (decValue neg int frac false [])

/-! ## Rendering a JavaScript number back to a string

Template literals in the emitter interpolate numbers via the standard
JavaScript number-to-string conversion.  All values the emitter prints are
rationals whose denominator divides a power of ten (decimal mantissas
scaled by powers of ten), for which the conversion is: plain notation for
integers below 10^21, fixed-point notation down to 10^-6, exponential
notation otherwise. -/

/-- Least `k ≤ fuel` with `d ∣ 10 ^ k` (searched with fuel; every
    denominator produced by `parseValue` divides a power of ten). -/
def pow10ExpAux : Nat → Nat → Nat → Nat
  | 0, _, k => k
  | fuel + 1, d, k => if d ∣ 10 ^ k then k else pow10ExpAux fuel d (k + 1)

def pow10Exp (d : Nat) : Nat := pow10ExpAux 400 d 0

def stripTrailZeros (ds : List Char) : List Char :=
  (ds.reverse.dropWhile (fun c => c = '0')).reverse

/-- Exponential notation `d.dddde±N` from mantissa digits and a decimal
    exponent. -/
def expNotation (ds : List Char) (e : Int) : String :=
  let m := stripTrailZeros ds
  let mant :=
    match m with
    | [] => "0"
    | d :: rest => String.mk [d] ++ (if rest = [] then "" else "." ++ String.mk rest)
  mant ++ "e" ++ (if e < 0 then "-" else "+") ++ toString e.natAbs

/-- JavaScript number-to-string conversion, restricted to rationals with a
    power-of-ten denominator (the only numbers the emitter interpolates). -/
def ratToJsString (q : ℚ) : String :=
  if q = 0 then "0"
  else
    let sgn := if q < 0 then "-" else ""
    let n := q.num.natAbs
    let d := q.den
    if d = 1 then
      let ds := (toString n).data
      if ds.length ≤ 21 then sgn ++ toString n
      else sgn ++ expNotation ds (ds.length - 1)
    else
      let k := pow10Exp d
      let a := n * (10 ^ k / d)
      let ds := (toString a).data
      let e : Int := (ds.length : Int) - 1 - (k : Int)
      if e ≤ -7 ∨ e ≥ 21 then sgn ++ expNotation ds e
      else if ds.length ≤ k then
        sgn ++ "0." ++ String.mk (List.replicate (k - ds.length) '0') ++ String.mk ds
      else
        sgn ++ String.mk (ds.take (ds.length - k)) ++ "." ++ String.mk (ds.drop (ds.length - k))

/-! ## `server/utils/simple-spice.ts` -/

/-- `DISPLAY_ONLY_TYPES` (simple-spice.ts:8). -/
def DISPLAY_ONLY_TYPES : List String :=
  ["oscilloscope", "node", "label", "measurement", "multimeter"]

/-- The two ohm glyphs removed by `OHM_CHARS = /[ΩΩ]/g` (U+03A9 and U+2126). -/
def ohmChar (c : Char) : Bool := c = 'Ω' ∨ c = 'Ω'

/-- The character stripping performed at the start of `parseValue`:
    trim, remove ohm glyphs, remove underscores, remove all whitespace. -/
def stripValue (cs : List Char) : List Char :=
  (((jsTrim cs).filter (fun c => ¬ ohmChar c)).filter (fun c => c ≠ '_')).filter
    (fun c => ¬ jsWs c)

/-- Characters of the trailing-suffix group `[a-zA-Zµ]` in `parseValue`. -/
def isSufChar (c : Char) : Bool := c.isAlpha ∨ c = 'µ'

/-- The optional `[+-]` sign group of the value pattern: the sign
    characters and the rest. -/
def signSplit : List Char → List Char × List Char
  | c :: rest => if c = '+' ∨ c = '-' then ([c], rest) else ([], c :: rest)
  | [] => ([], [])

def fracSplit : List Char → List Char × List Char × List Char
  | '.' :: rest =>
    (['.'], rest.takeWhile Char.isDigit, rest.drop (rest.takeWhile Char.isDigit).length)
  | r1 => ([], [], r1)

def expSplit : List Char → List Char × List Char
  | c :: rest =>
    if c = 'e' ∨ c = 'E' then
      let (sgn2, r2a) := signSplit rest
      let eds := r2a.takeWhile Char.isDigit
      if eds = [] then ([], c :: rest) else (c :: (sgn2 ++ eds), r2a.drop eds.length)
    else ([], c :: rest)
  | [] => ([], [])

def valueRegexCore (cs : List Char) (useExp : Bool) : Option (List Char × List Char) :=
  let (sgnChars, r0) := signSplit cs
  let d1 := r0.takeWhile Char.isDigit
  let r1 := r0.drop d1.length
  let (dotChars, d2, r2) := fracSplit r1
  if d1 = [] ∧ d2 = [] then none
  else
    let (expChars, r3) := if useExp then expSplit r2 else ([], r2)
    let suf := r3.takeWhile isSufChar
    let r4 := r3.drop suf.length
    if r4 = [] then some (sgnChars ++ d1 ++ dotChars ++ d2 ++ expChars, suf) else none

/-- The anchored value regular expression of `parseValue`: try with the
    exponent group first (greedy), fall back to the empty exponent, which
    is the only backtracking the pattern can perform. -/
def matchValueRegex (cs : List Char) : Option (List Char × List Char) :=
  match valueRegexCore cs true with
  | some r => some r
  | none => valueRegexCore cs false

/-- The SI multiplier table of `parseValue` (simple-spice.ts:47), applied
    to the lower-cased suffix. -/
def suffixMult (suf : List Char) : ℚ :=
  if suf = "t".data then 1000000000000
  else if suf = "g".data then 1000000000
  else if suf = "meg".data then 1000000
  else if suf = "k".data then 1000
  else if suf = "m".data then 1 / 1000
  else if suf = "u".data ∨ suf = "µ".data then 1 / 1000000
  else if suf = "n".data then 1 / 1000000000
  else if suf = "p".data then 1 / 1000000000000
  else if suf = "f".data then 1 / 1000000000000000
  else 1

/-- `parseValue` (simple-spice.ts:30).  The netlist emitter always passes a
    string (or a defaulted string), so the `typeof val === "number"` branch
    is not exercised; `none` models a null/undefined value. -/
def parseValue (val : Option String) (fallback : ℚ) : ℚ :=
  match val with
  | none => fallback
  | some v =>
    let s := stripValue v.data
    match matchValueRegex s with
    | some (numStr, sufRaw) =>
      match jsNumber numStr with
      | some num => num * suffixMult (lowerChars sufRaw)
      | none => fallback
    | none =>
      match jsNumber s with
      | some n => n
      | none => fallback

/-- `normalizeNet` (simple-spice.ts:20). -/
def normalizeNet (raw : String) : String :=
  if raw = "" then ""
  else
    let s := jsTrim raw.data
    let upper := upperChars s
    if upper = "0".data ∨ upper = "GND".data ∨ upper = "GROUND".data ∨
        upper = "AGND".data ∨ upper = "DGND".data then "0"
    else String.mk s

/-- The `netToNodeMap` object: net name to node index, in insertion order. -/
abbrev NetMap := List (String × Nat)

def lookupNet : NetMap → String → Option Nat
  | [], _ => none
  | (k, v) :: rest, n => if k = n then some v else lookupNet rest n

def netKeys (m : NetMap) : List String := m.map Prod.fst

def netVals (m : NetMap) : List Nat := m.map Prod.snd

/-- `Math.max(...used)` over the (non-negative) used node indices. -/
def maxVal (l : List Nat) : Nat := l.foldl max 0

/-- `touch` (simple-spice.ts:70): normalize, return 0 for ground/blank,
    reuse an existing index, otherwise allocate `max(existing) + 1`
    (1 when the map is empty) and append the entry. -/
def touch (m : NetMap) (netName : String) : Nat × NetMap :=
  let n := normalizeNet netName
  if n = "" ∨ n = "0" then (0, m)
  else
    match lookupNet m n with
    | some v => (v, m)
    | none =>
      let next := if m = [] then 1 else maxVal (netVals m) + 1
      (next, m ++ [(n, next)])

/-- `nodesOf` (simple-spice.ts:83): touch each name in order, threading the
    map. -/
def nodesOf (m : NetMap) : List String → List Nat × NetMap
  | [] => ([], m)
  | x :: xs =>
    let (v, m1) := touch m x
    let (vs, m2) := nodesOf m1 xs
    (v :: vs, m2)

/-- `comp.ref || "R?"`-style defaulting (empty string is falsy). -/
def refOr (ref fallbackRef : String) : String := if ref = "" then fallbackRef else ref

/-- Device line of `E.res`. -/
def resLine (ref : String) (na nb : Nat) (ohms : ℚ) : String :=
  "R" ++ ref ++ " " ++ toString na ++ " " ++ toString nb ++ " " ++ ratToJsString ohms

/-- Device line of `E.cap`. -/
def capLine (ref : String) (na nb : Nat) (f : ℚ) : String :=
  "C" ++ ref ++ " " ++ toString na ++ " " ++ toString nb ++ " " ++ ratToJsString f

/-- Device line of `E.diode`. -/
def diodeLine (ref : String) (na nb : Nat) (model : String) : String :=
  "D" ++ ref ++ " " ++ toString na ++ " " ++ toString nb ++ " " ++ model

/-- Device line of `E.vsource`. -/
def vsourceLine (ref : String) (np nn : Nat) (v : ℚ) : String :=
  "V" ++ ref ++ " " ++ toString np ++ " " ++ toString nn ++ " DC " ++ ratToJsString v

/-- Device line of `E.npn`. -/
def npnLine (ref : String) (nc nb ne : Nat) (model : String) : String :=
  "Q" ++ ref ++ " " ++ toString nc ++ " " ++ toString nb ++ " " ++ toString ne ++ " " ++ model

/-- A pin of `SimpleCircuitComponent` (only the wired net matters to the
    emitter; polarity and comments are never read). -/
structure SPin where
  net : String
  deriving DecidableEq, Repr

/-- `SimpleCircuitComponent` (simple-spice.ts:124), with the optional
    fields modelled by `Option` and the pin record by an association list
    in declaration order. -/
structure SComponent where
  ref : String
  kind : String
  model : Option String := none
  ctype : Option String := none
  value : Option String := none
  pins : List (String × SPin) := []
  deriving DecidableEq, Repr

/-- `comp.pins?.[label]?.net`. -/
def pinNet (c : SComponent) (label : String) : Option String :=
  match c.pins.lookup label with
  | some p => some p.net
  | none => none

/-- JavaScript truthiness of an optional string (`undefined` and `""` are
    falsy). -/
def truthy : Option String → Bool
  | none => false
  | some s => s ≠ ""

/-- `pickBjtModel` (simple-spice.ts:306). -/
def pickBjtModel (model : Option String) (ref : String) : String :=
  let m := upperChars (model.getD "").data
  if containsSub m "BC549".data then "BC549"
  else if containsSub m "BC337".data then "BC337"
  else if upperChars ref.data = "Q4".data then "BC549"
  else "BC337"

/-- `comp.model || "D1N4148"`-style defaulting. -/
def modelOr (model : Option String) (fallbackModel : String) : String :=
  match model with
  | none => fallbackModel
  | some s => if s = "" then fallbackModel else s

/-- One iteration of the emission loop of `generateSimpleSpiceNetlist`
    (simple-spice.ts:148): skip display-only kinds/types, then dispatch on
    `comp.kind`.  Components of kind `"node"` are members of
    `DISPLAY_ONLY_TYPES`, so the `case "node"` junction-merge branch of the
    source is unreachable and contributes nothing here. -/
def processComponent (m : NetMap) (c : SComponent) : List String × NetMap :=
  if DISPLAY_ONLY_TYPES.contains c.kind ∨ DISPLAY_ONLY_TYPES.contains (c.ctype.getD "") then
    ([], m)
  else
    match c.kind with
    | "resistor" =>
      let a := pinNet c "1"
      let b := pinNet c "2"
      if truthy a ∧ truthy b then
        let (na, m1) := touch m (a.getD "")
        let (nb, m2) := touch m1 (b.getD "")
        ([resLine (refOr c.ref "R?") na nb (parseValue (some (c.value.getD "1k")) 1000)], m2)
      else ([], m)
    | "capacitor" =>
      let a := pinNet c "1"
      let b := pinNet c "2"
      if truthy a ∧ truthy b then
        let (na, m1) := touch m (a.getD "")
        let (nb, m2) := touch m1 (b.getD "")
        ([capLine (refOr c.ref "C?") na nb (parseValue (some (c.value.getD "1u")) (1 / 1000000))], m2)
      else ([], m)
    | "led" =>
      let a := pinNet c "1"
      let b := pinNet c "2"
      if truthy a ∧ truthy b then
        let (na, m1) := touch m (a.getD "")
        let (nb, m2) := touch m1 (b.getD "")
        ([diodeLine (refOr c.ref "D?") na nb (modelOr c.model "D1N4148")], m2)
      else ([], m)
    | "diode" =>
      let a := pinNet c "1"
      let b := pinNet c "2"
      if truthy a ∧ truthy b then
        let (na, m1) := touch m (a.getD "")
        let (nb, m2) := touch m1 (b.getD "")
        ([diodeLine (refOr c.ref "D?") na nb (modelOr c.model "D1N4148")], m2)
      else ([], m)
    | "battery" =>
      let p := pinNet c "2"
      let n := pinNet c "1"
      if truthy p ∧ truthy n then
        let (np, m1) := touch m (p.getD "")
        let (nn, m2) := touch m1 (n.getD "")
        ([vsourceLine (refOr c.ref "V?") np nn (parseValue (some (c.value.getD "5")) 5)], m2)
      else ([], m)
    | "transistor" =>
      let cc := pinNet c "C"
      let bb := pinNet c "B"
      let ee := pinNet c "E"
      if truthy cc ∧ truthy bb ∧ truthy ee then
        let (nc, m1) := touch m (cc.getD "")
        let (nb, m2) := touch m1 (bb.getD "")
        let (ne, m3) := touch m2 (ee.getD "")
        ([npnLine (refOr c.ref "Q?") nc nb ne (pickBjtModel c.model c.ref)], m3)
      else ([], m)
    | _ => ([], m)

/-- The avalanche-noise block appended after the emission loop
    (simple-spice.ts:239): two comment lines always, plus zener and noise
    source lines when the map contains the net `"Q1E"`. -/
def noiseBlock (m : NetMap) : List String :=
  ["", "* Zener-assisted avalanche breakdown at emitter node",
   "* Q1 creates BE breakdown ~6-8V, zener provides realistic breakdown for noise"] ++
  (match lookupNet m "Q1E" with
   | some q1eNode =>
     ["DNOISE 0 " ++ toString q1eNode ++ " DZ6V8    ; Zener emulates avalanche breakdown",
      "",
      "* Transient noise at Q1E node (deterministic sine for NGSpice compatibility)",
      "VNOISE " ++ toString q1eNode ++ " 0 SIN(0 0.001 1000)"]
   | none => [])

/-- The fixed model and control card lines (simple-spice.ts:252-274). -/
def modelAndControlLines : List String :=
  ["", "* --- BJT models ---",
   ".model BC337 NPN (IS=1e-14 BF=200 VAF=100 NF=1 RB=100 RE=1 RC=1 CJE=5p VJE=0.7 CJC=3p VJC=0.3 TF=0.3n TR=10n KF=2e-14 AF=1)",
   ".model BC549 NPN (IS=1e-14 BF=300 VAF=150 NF=1 RB=150 RE=1 RC=1 CJE=6p VJE=0.7 CJC=3p VJC=0.3 TF=0.25n TR=8n KF=5e-15 AF=1)",
   "", "* --- Zener models ---",
   ".model DZ6V8 D (IS=1e-14 N=1 BV=6.8 IBV=10u RS=10 KF=0 AF=1)",
   ".model DZ4V7 D (IS=1e-14 N=1 BV=4.7 IBV=10u RS=10 KF=0 AF=1)",
   "", "* Solver options for convergence stability",
   ".options reltol=1e-3 abstol=1e-12 vntol=1e-6",
   ".options gmin=1e-12 itl1=100 itl2=50",
   ".options temp=27 tnom=27",
   "", "* Analysis", ".control", "set filetype=ascii", "op", "print all",
   "", "* Transient analysis with proper timestep for noise",
   "tran 0.1us 5ms uic"]

/-- The `wrdata`/`print` node list: `v(<n>)` for every map entry with a
    positive node index, in entry order (simple-spice.ts:276). -/
def nodeListOf (m : NetMap) : List String :=
  (m.filter (fun e => 0 < e.2)).map (fun e => "v(" ++ toString e.2 ++ ")")

/-- `generateSimpleSpiceNetlist` (simple-spice.ts:135): returns the deck
    text and the final net-to-node map. -/
def generateSimpleSpiceNetlist (comps : List SComponent) : String × NetMap :=
  let init : List String × NetMap := (["Simple Circuit", ""], [("0", 0)])
  let (devLines, m) := comps.foldl
    (fun acc c =>
      let (ls, m2) := processComponent acc.2 c
      (acc.1 ++ ls, m2)) init
  let nodeList := nodeListOf m
  let lines := devLines ++ noiseBlock m ++ modelAndControlLines ++
    ["wrdata tran.csv time " ++ String.intercalate " " nodeList,
     "print time " ++ String.intercalate " " nodeList,
     ".endc", ".end"]
  (String.intercalate "\n" lines, m)

/-! ## `server/utils/ngspice-interface.ts`

JavaScript `NaN` (the result of `parseFloat` on a non-numeric token) is
modelled as `none : Option ℚ`; the engine-output decoders store such
values unchecked, so map values are `Option ℚ` throughout.  Overflow of
the IEEE double range (values beyond ~1.8e308) does not occur in the
engine outputs handled here and is not modelled. -/

/-- A transient-analysis result (`time`, `voltages`, `currents` of
    `NgSpiceResult.transientData`). -/
structure TransientData where
  time : List ℚ
  voltages : List (String × List (Option ℚ))
  currents : List (String × List (Option ℚ))
  deriving DecidableEq, Repr

/-- The fields of `NgSpiceResult` exercised by the decoding path. -/
structure NgResult where
  success : Bool
  operatingPoint : Option (List (String × Option ℚ))
  transientData : Option TransientData
  error : Option String
  deriving DecidableEq, Repr

/-- The partial result built by `parseNgSpiceOutput`. -/
structure ParsedOut where
  operatingPoint : Option (List (String × Option ℚ))
  transientData : Option TransientData
  deriving DecidableEq, Repr

/-- Characters of a string split at every newline (the structural model
    of `output.split('\\n')`; `String.splitOn` is defined by well-founded
    recursion, which blocks kernel evaluation). -/
def splitNlChars : List Char → List (List Char)
  | [] => [[]]
  | c :: rest =>
    match splitNlChars rest with
    | a :: as => if c = '\n' then [] :: a :: as else (c :: a) :: as
    | [] => [[c]]

/-- `output.split('\\n')`. -/
def splitNl (s : String) : List String := (splitNlChars s.data).map String.mk

/-- JavaScript object assignment `m[k] = v`: overwrite in place or append. -/
def setAssoc {α : Type} : List (String × α) → String → α → List (String × α)
  | [], k, v => [(k, v)]
  | (k0, v0) :: rest, k, v =>
    if k0 = k then (k0, v) :: rest else (k0, v0) :: setAssoc rest k v

/-- JavaScript object read `m[k]`. -/
def getAssoc {α : Type} : List (String × α) → String → Option α
  | [], _ => none
  | (k0, v0) :: rest, k => if k0 = k then some v0 else getAssoc rest k

/-- The number class `[-\d.e+-]` of the operating-point patterns compiled
    with `/i` (the flag also folds the letter inside the class). -/
def isNumCharI (c : Char) : Bool :=
  c.isDigit ∨ c = '-' ∨ c = '+' ∨ c = '.' ∨ c = 'e' ∨ c = 'E'

/-- The same class in the case-sensitive patterns (no `/i`). -/
def isNumCharCS (c : Char) : Bool :=
  c.isDigit ∨ c = '-' ∨ c = '+' ∨ c = '.' ∨ c = 'e'

/-- Anchored attempt of `v\(([^)]+)\)\s*=\s*([-\d.e+-]+)` with `/i`
    (ngspice-interface.ts:280); the greedy classes exclude their closing
    literals, so the match is deterministic. -/
def tryVoltEqAt (cs : List Char) : Option (List Char × List Char) :=
  match cs with
  | c :: '(' :: rest =>
    if c = 'v' ∨ c = 'V' then
      let inner := rest.takeWhile (fun ch => ch ≠ ')')
      if inner = [] then none
      else
        match rest.drop inner.length with
        | ')' :: r1 =>
          let r2 := r1.dropWhile jsWs
          match r2 with
          | '=' :: r3 =>
            let r4 := r3.dropWhile jsWs
            let num := r4.takeWhile isNumCharI
            if num = [] then none else some (inner, num)
          | _ => none
        | _ => none
    else none
  | _ => none

def searchVoltEq : List Char → Option (List Char × List Char)
  | [] => none
  | c :: rest =>
    match tryVoltEqAt (c :: rest) with
    | some r => some r
    | none => searchVoltEq rest

/-- Anchored attempt of `V\(([^)]+)\)\s+([-\d.e+-]+)` (case-sensitive,
    ngspice-interface.ts:289). -/
def tryVoltColAt (cs : List Char) : Option (List Char × List Char) :=
  match cs with
  | 'V' :: '(' :: rest =>
    let inner := rest.takeWhile (fun ch => ch ≠ ')')
    if inner = [] then none
    else
      match rest.drop inner.length with
      | ')' :: r1 =>
        let w := r1.takeWhile jsWs
        if w = [] then none
        else
          let num := (r1.drop w.length).takeWhile isNumCharCS
          if num = [] then none else some (inner, num)
      | _ => none
  | _ => none

def searchVoltCol : List Char → Option (List Char × List Char)
  | [] => none
  | c :: rest =>
    match tryVoltColAt (c :: rest) with
    | some r => some r
    | none => searchVoltCol rest

/-- Anchored attempt of `i\(([^)]+)\)\s*=\s*([-\d.e+-]+)` with `/i`
    (ngspice-interface.ts:299). -/
def tryCurrEqAt (cs : List Char) : Option (List Char × List Char) :=
  match cs with
  | c :: '(' :: rest =>
    if c = 'i' ∨ c = 'I' then
      let inner := rest.takeWhile (fun ch => ch ≠ ')')
      if inner = [] then none
      else
        match rest.drop inner.length with
        | ')' :: r1 =>
          let r2 := r1.dropWhile jsWs
          match r2 with
          | '=' :: r3 =>
            let r4 := r3.dropWhile jsWs
            let num := r4.takeWhile isNumCharI
            if num = [] then none else some (inner, num)
          | _ => none
        | _ => none
    else none
  | _ => none

def searchCurrEq : List Char → Option (List Char × List Char)
  | [] => none
  | c :: rest =>
    match tryCurrEqAt (c :: rest) with
    | some r => some r
    | none => searchCurrEq rest

/-- Anchored attempt of `([^#\s]+)#branch\s+([-\d.e+-]+)`
    (ngspice-interface.ts:308). -/
def tryBranchAt (cs : List Char) : Option (List Char × List Char) :=
  let name := cs.takeWhile (fun c => ¬ (c = '#' ∨ jsWs c))
  if name = [] then none
  else
    let r1 := cs.drop name.length
    if litStarts "#branch".data r1 then
      let r2 := r1.drop 7
      let w := r2.takeWhile jsWs
      if w = [] then none
      else
        let num := (r2.drop w.length).takeWhile isNumCharCS
        if num = [] then none else some (name, num)
    else none

def searchBranch : List Char → Option (List Char × List Char)
  | [] => none
  | c :: rest =>
    match tryBranchAt (c :: rest) with
    | some r => some r
    | none => searchBranch rest

/-- One line of the operating-point loop of `parseNgSpiceOutput`
    (ngspice-interface.ts:277): the four patterns attempted in order,
    producing a keyed entry whose value is `parseFloat` of the captured
    number token. -/
def lineOpEntry (line : String) : Option (String × Option ℚ) :=
  match searchVoltEq line.data with
  | some (node, num) => some ("v_" ++ String.mk node, jsParseFloat num)
  | none =>
    match searchVoltCol line.data with
    | some (node, num) => some ("v_" ++ String.mk node, jsParseFloat num)
    | none =>
      match searchCurrEq line.data with
      | some (comp, num) => some ("i_" ++ String.mk comp, jsParseFloat num)
      | none =>
        match searchBranch line.data with
        | some (comp, num) => some ("i_" ++ String.mk comp, jsParseFloat num)
        | none => none

/-! ### The no-delimiter number tokenizer -/

/-- One token of the global scan
    `[+-]?(?:\d+\.\d+|\d+\.?\d*)(?:e[+-]?\d+)?` with `/ig`
    (ngspice-interface.ts:536) at the current position, returned directly
    as its `Number` value together with the rest of the input.  Both
    alternatives demand a leading digit run; the ordered alternation and
    greedy runs amount to: digits, then an optional dot with further
    digits, then a greedy optional exponent (taken only when complete). -/
def matchNumAt (cs : List Char) : Option (ℚ × List Char) :=
  let (neg, r0) :=
    match cs with
    | '-' :: rest => (true, rest)
    | '+' :: rest => (false, rest)
    | _ => (false, cs)
  let d1 := r0.takeWhile Char.isDigit
  if d1 = [] then none
  else
    let r1 := r0.drop d1.length
    let (d2, r2) :=
      match r1 with
      | '.' :: rest => (rest.takeWhile Char.isDigit, rest.drop (rest.takeWhile Char.isDigit).length)
      | _ => (([] : List Char), r1)
    match readExp r2 with
    | some (en, eds, r3) => some (decValue neg d1 d2 en eds, r3)
    | none => some (decValue neg d1 d2 false [], r2)

/-- The global scan of the tokenizer: left to right, at each position the
    pattern is attempted and the scan resumes after a match (fuelled by
    the input length, which bounds the number of steps). -/
def scanNumbersAux : Nat → List Char → List ℚ
  | 0, _ => []
  | _, [] => []
  | fuel + 1, c :: rest =>
    match matchNumAt (c :: rest) with
    | some (v, rest2) => v :: scanNumbersAux fuel rest2
    | none => scanNumbersAux fuel rest

def scanNumbers (cs : List Char) : List ℚ := scanNumbersAux cs.length cs

/-- `tokenizeConcatenatedLine` (ngspice-interface.ts:518): peel a leading
    greedy integer index with `^(\d+)(.*)$`, then scan the remainder for
    number tokens.  (In the rational model every token value is finite, so
    the `filter(Number.isFinite)` keeps all of them.) -/
def tokenizeConcatenatedLine (line : String) : Option (Nat × List ℚ) :=
  let s := jsTrim line.data
  if s = [] then none
  else
    let d := s.takeWhile Char.isDigit
    if d = [] then none
    else some (digitsToNat d, scanNumbers (s.drop d.length))

/-! ### `parseCustomTransientFormat` -/

/-- Splitting on `/\r?\n/`: split at every newline, then strip one
    carriage return from the end of each piece. -/
def stripCR (cs : List Char) : List Char :=
  match cs.reverse with
  | '\r' :: rest => rest.reverse
  | _ => cs

def splitLinesCR (s : String) : List String :=
  (splitNl s).map (fun t => String.mk (stripCR t.data))

/-- Accumulator of the row loop of `parseCustomTransientFormat`. -/
structure CTState where
  time : List ℚ
  voltages : List (String × List (Option ℚ))
  pointCount : Nat
  maxNodeCount : Nat
  deriving DecidableEq, Repr

/-- `for (let i = 1; i <= nodeCount; i++) if (!voltages[i]) voltages[i] = []`. -/
def ensureKeys (v : List (String × List (Option ℚ))) (nodeCount : Nat) :
    List (String × List (Option ℚ)) :=
  (List.range nodeCount).foldl
    (fun acc i =>
      let key := toString (i + 1)
      match getAssoc acc key with
      | some _ => acc
      | none => acc ++ [(key, [])]) v

/-- The per-row voltage pushes: value `i` goes to node id `i+1`, creating
    the entry when absent. -/
def pushValues (v : List (String × List (Option ℚ))) (vals : List ℚ) :
    List (String × List (Option ℚ)) :=
  vals.enum.foldl
    (fun acc iv =>
      let key := toString (iv.1 + 1)
      match getAssoc acc key with
      | some l => setAssoc acc key (l ++ [some iv.2])
      | none => acc ++ [(key, [some iv.2])]) v

/-- `for (let i = nodeVoltages.length + 1; i <= maxNodeCount; i++)
    if (voltages[i]) voltages[i].push(0)`. -/
def padZeros (v : List (String × List (Option ℚ))) (lo hi : Nat) :
    List (String × List (Option ℚ)) :=
  (List.range (hi + 1 - lo)).foldl
    (fun acc i =>
      let key := toString (lo + i)
      match getAssoc acc key with
      | some l => setAssoc acc key (l ++ [some (0 : ℚ)])
      | none => acc) v

/-- One line of the loop of `parseCustomTransientFormat`
    (ngspice-interface.ts:558). -/
def ctLine (st : CTState) (line : String) : CTState :=
  let trimmed := jsTrim line.data
  if trimmed = [] ∨ litStarts "Index".data trimmed then st
  else
    match tokenizeConcatenatedLine (String.mk trimmed) with
    | none => st
    | some (_, values) =>
      match values with
      | [] => st
      | [_] => st
      | timeVal :: nodeVoltages =>
        let st1 := { st with time := st.time ++ [timeVal] }
        let nodeCount := nodeVoltages.length
        let st2 :=
          if nodeCount > st1.maxNodeCount then
            { st1 with maxNodeCount := nodeCount, voltages := ensureKeys st1.voltages nodeCount }
          else st1
        let st3 := { st2 with voltages := pushValues st2.voltages nodeVoltages }
        let st4 := { st3 with voltages := padZeros st3.voltages (nodeVoltages.length + 1) st3.maxNodeCount }
        { st4 with pointCount := st4.pointCount + 1 }

/-- `parseCustomTransientFormat` (ngspice-interface.ts:546): fold the row
    loop, then accept only with more than 100 data points. -/
def parseCustomTransientFormat (dataLines : String) : Option TransientData :=
  let st := (splitLinesCR dataLines).foldl ctLine ⟨[], [], 0, 0⟩
  if st.pointCount > 100 then some ⟨st.time, st.voltages, []⟩ else none

/-! ### Locating the output blocks of `parseTransientData` -/

/-- Lazy capture `([\s\S]*?)` up to a case-insensitive literal: the
    shortest prefix followed by the literal; `none` when the literal never
    occurs. -/
def lazyCaptureCiAux (pat : List Char) : List Char → List Char → Option (List Char)
  | acc, [] => if ciStarts pat [] then some acc.reverse else none
  | acc, c :: r =>
    if ciStarts pat (c :: r) then some acc.reverse else lazyCaptureCiAux pat (c :: acc) r

/-- The terminator `(?:\n\n|\n$)` ($ is end of input, no `/m` flag). -/
def nlTerminator : List Char → Bool
  | '\n' :: '\n' :: _ => true
  | ['\n'] => true
  | _ => false

/-- Lazy capture `([\s\S]*?)` up to `(?:\n\n|\n$)`. -/
def lazyCaptureNl : List Char → List Char → Option (List Char)
  | _, [] => none
  | acc, c :: r =>
    if nlTerminator (c :: r) then some acc.reverse else lazyCaptureNl (c :: acc) r

/-- Index of the last newline of a char list. -/
def lastNlAux : List Char → Nat → Option Nat → Option Nat
  | [], _, best => best
  | c :: rest, i, best => lastNlAux rest (i + 1) (if c = '\n' then some i else best)

def lastNl (w : List Char) : Option Nat := lastNlAux w 0 none

/-- `\s*\n` with its greedy backtracking resolved: the maximal whitespace
    run must contain a newline and the match resumes after its last one
    (a later newline cannot exist outside the run, and the sub-pattern
    after the star begins with that newline). -/
def wsNlSplit (cs : List Char) : Option (List Char) :=
  let w := cs.takeWhile jsWs
  match lastNl w with
  | none => none
  | some k => some (w.drop (k + 1) ++ cs.drop w.length)

/-- Character class `[\s\w\(\)]` of the custom-format header pattern. -/
def customHdrClass (c : Char) : Bool :=
  jsWs c ∨ isWordChar c ∨ c = '(' ∨ c = ')'

/-- Anchored attempt of
    `Index\s+time\s+v\(\d+\)[\s\w\(\)]*\n-+\n([\s\S]*?)(?:\n\n|\n$)` with
    `/i` (ngspice-interface.ts:441), returning the captured data-row text.
    The dash of the separator line is outside the starred class, so the
    starred part necessarily ends at the newline preceding the dashes. -/
def tryCustomAt (cs : List Char) : Option (List Char) :=
  if ciStarts "index".data cs then
    let r1 := cs.drop 5
    let w1 := r1.takeWhile jsWs
    if w1 = [] then none
    else
      let r2 := r1.drop w1.length
      if ciStarts "time".data r2 then
        let r3 := r2.drop 4
        let w2 := r3.takeWhile jsWs
        if w2 = [] then none
        else
          let r4 := r3.drop w2.length
          match r4 with
          | c :: '(' :: r5 =>
            if c = 'v' ∨ c = 'V' then
              let ds := r5.takeWhile Char.isDigit
              if ds = [] then none
              else
                match r5.drop ds.length with
                | ')' :: r6 =>
                  let T := r6.takeWhile customHdrClass
                  if T ≠ [] ∧ T.getLast? = some '\n' then
                    let r7 := r6.drop T.length
                    let dashes := r7.takeWhile (fun ch => ch = '-')
                    if dashes = [] then none
                    else
                      match r7.drop dashes.length with
                      | '\n' :: r8 => lazyCaptureNl [] r8
                      | _ => none
                  else none
                | _ => none
            else none
          | _ => none
      else none
  else none

def findCustomBlock : List Char → Option (List Char)
  | [] => none
  | c :: rest =>
    match tryCustomAt (c :: rest) with
    | some r => some r
    | none => findCustomBlock rest

/-- Search for `/plotname:\s*Transient Analysis/i`
    (ngspice-interface.ts:448). -/
def hasPlotnameTransient : List Char → Bool
  | [] => false
  | c :: rest =>
    (if ciStarts "plotname:".data (c :: rest) then
      ciStarts "transient analysis".data (((c :: rest).drop 9).dropWhile jsWs)
    else false) || hasPlotnameTransient rest

/-- Anchored attempt of `Variables:\s*\n([\s\S]*?)\nValues:` with `/i`
    (ngspice-interface.ts:454). -/
def tryVariablesAt (cs : List Char) : Option (List Char) :=
  if ciStarts "variables:".data cs then
    match wsNlSplit (cs.drop 10) with
    | none => none
    | some rest => lazyCaptureCiAux "\nvalues:".data [] rest
  else none

def findVariablesBlock : List Char → Option (List Char)
  | [] => none
  | c :: rest =>
    match tryVariablesAt (c :: rest) with
    | some r => some r
    | none => findVariablesBlock rest

/-- Anchored attempt of `Values:\s*\n([\s\S]*?)(?:\n\n|\n$)` with `/i`
    (ngspice-interface.ts:455). -/
def tryValuesAt (cs : List Char) : Option (List Char) :=
  if ciStarts "values:".data cs then
    match wsNlSplit (cs.drop 7) with
    | none => none
    | some rest => lazyCaptureNl [] rest
  else none

def findValuesBlock : List Char → Option (List Char)
  | [] => none
  | c :: rest =>
    match tryValuesAt (c :: rest) with
    | some r => some r
    | none => findValuesBlock rest

/-! ### The `Variables`/`Values` transient decoder -/

/-- Anchored match of `^\d+\s+([^\s]+)\s+` on a variables line
    (ngspice-interface.ts:466), returning the lower-cased name. -/
def varLineName (l : List Char) : Option (List Char) :=
  let d := l.takeWhile Char.isDigit
  if d = [] then none
  else
    let r1 := l.drop d.length
    let w1 := r1.takeWhile jsWs
    if w1 = [] then none
    else
      let r2 := r1.drop w1.length
      let name := r2.takeWhile (fun c => ¬ jsWs c)
      if name = [] then none
      else
        let r3 := r2.drop name.length
        let w2 := r3.takeWhile jsWs
        if w2 = [] then none else some (lowerChars name)

/-- Match of `^v\((\d+)\)$` on a lower-cased variable name
    (ngspice-interface.ts:480). -/
def voltName (name : List Char) : Option (List Char) :=
  match name with
  | 'v' :: '(' :: rest =>
    let ds := rest.takeWhile Char.isDigit
    if ds = [] then none
    else
      match rest.drop ds.length with
      | [')'] => some ds
      | _ => none
  | _ => none

def findTimeIdxAux : List (List Char) → Nat → Option Nat
  | [], _ => none
  | x :: rest, i => if x = "time".data then some i else findTimeIdxAux rest (i + 1)

/-- `for (const node in voltageIndices)` iterates integer-like keys in
    ascending numeric order; the node ids are digit strings. -/
def insertSortedKey (x : String × Nat) : List (String × Nat) → List (String × Nat)
  | [] => [x]
  | y :: rest =>
    if digitsToNat x.1.data < digitsToNat y.1.data then x :: y :: rest
    else y :: insertSortedKey x rest

def sortVoltKeys (l : List (String × Nat)) : List (String × Nat) :=
  l.foldl (fun acc x => insertSortedKey x acc) []

/-- `row.trim().split(/\s+/)` (the row is already trimmed; an empty row
    yields the single empty column JavaScript produces). -/
def fieldsWsAux : Nat → List Char → List (List Char)
  | 0, _ => []
  | _, [] => []
  | fuel + 1, cs =>
    let cs1 := cs.dropWhile jsWs
    match cs1 with
    | [] => []
    | _ =>
      let fld := cs1.takeWhile (fun c => ¬ jsWs c)
      fld :: fieldsWsAux fuel (cs1.drop fld.length)

def wsSplitJs (cs : List Char) : List (List Char) :=
  if cs = [] then [[]] else fieldsWsAux (cs.length + 1) cs

/-- One row of the `Values` loop (ngspice-interface.ts:495). -/
def stdRow (indexLen timeIdx : Nat) (voltIdx : List (String × Nat))
    (acc : List ℚ × List (String × List (Option ℚ))) (row : String) :
    List ℚ × List (String × List (Option ℚ)) :=
  let cols := wsSplitJs (jsTrim row.data)
  if cols.length ≠ indexLen then acc
  else
    match jsNumber (cols.getD timeIdx []) with
    | none => acc
    | some t =>
      let volts := voltIdx.foldl
        (fun vacc ki =>
          let pushed : Option ℚ :=
            match jsNumber (cols.getD ki.2 []) with
            | some x => some x
            | none => some 0
          match getAssoc vacc ki.1 with
          | some l => setAssoc vacc ki.1 (l ++ [pushed])
          | none => vacc) acc.2
      (acc.1 ++ [t], volts)

/-- The `Variables`/`Values` branch of `parseTransientData`
    (ngspice-interface.ts:461-515). -/
def buildStdTransient (varsBlock valsBlock : String) : Option TransientData :=
  let varLines := ((splitLinesCR varsBlock).map (fun l => jsTrim l.data)).filter
    (fun l => l ≠ [])
  let indexToName := varLines.filterMap varLineName
  match findTimeIdxAux indexToName 0 with
  | none => none
  | some timeIdx =>
    let voltRaw := indexToName.enum.filterMap
      (fun p => (voltName p.2).map (fun ds => (String.mk ds, p.1)))
    let voltMap := voltRaw.foldl (fun acc kv => setAssoc acc kv.1 kv.2) []
    let voltIdx := sortVoltKeys voltMap
    let init : List ℚ × List (String × List (Option ℚ)) :=
      ([], voltIdx.map (fun kv => (kv.1, [])))
    let res := (splitLinesCR valsBlock).foldl (stdRow indexToName.length timeIdx voltIdx) init
    some ⟨res.1, res.2, []⟩

/-- `parseTransientData` (ngspice-interface.ts:433): the custom tabular
    format first, otherwise the `Variables`/`Values` format guarded by the
    transient plot name. -/
def parseTransientData (output : String) : Option TransientData :=
  match findCustomBlock output.data with
  | some dataLines => parseCustomTransientFormat (String.mk dataLines)
  | none =>
    if ¬ hasPlotnameTransient output.data then none
    else
      match findVariablesBlock output.data, findValuesBlock output.data with
      | some varsBlock, some valsBlock =>
        buildStdTransient (String.mk varsBlock) (String.mk valsBlock)
      | _, _ => none

/-- `parseNgSpiceOutput` (ngspice-interface.ts:268): accumulate the
    operating-point entries line by line; when any were found, also attach
    whatever `parseTransientData` yields — with no minimum-length gate. -/
def parseNgSpiceOutput (output : String) : ParsedOut :=
  let op := (splitNl output).foldl
    (fun acc line =>
      match lineOpEntry line with
      | some (k, v) => setAssoc acc k v
      | none => acc) []
  if op.length > 0 then
    { operatingPoint := some op, transientData := parseTransientData output }
  else { operatingPoint := none, transientData := none }

/-! ### The analytic fallback (`performBasicCircuitAnalysis`) -/

/-- The voltage source found by `/^V\w+\s+(\d+)\s+(\d+)\s+DC\s+([\d.]+)/`. -/
structure VSrcScan where
  value : Option ℚ
  pos : Nat
  neg : Nat
  deriving DecidableEq, Repr

/-- The resistor found by `/^R\w+\s+(\d+)\s+(\d+)\s+([\d.]+k?)/`. -/
structure ResScan where
  value : Option ℚ
  node1 : Nat
  node2 : Nat
  deriving DecidableEq, Repr

/-- Anchored match of the voltage-source pattern on a trimmed deck line
    (ngspice-interface.ts:380). -/
def matchVLine (cs : List Char) : Option VSrcScan :=
  match cs with
  | 'V' :: rest =>
    let w := rest.takeWhile isWordChar
    if w = [] then none
    else
      let r1 := rest.drop w.length
      let s1 := r1.takeWhile jsWs
      if s1 = [] then none
      else
        let r2 := r1.drop s1.length
        let d1 := r2.takeWhile Char.isDigit
        if d1 = [] then none
        else
          let r3 := r2.drop d1.length
          let s2 := r3.takeWhile jsWs
          if s2 = [] then none
          else
            let r4 := r3.drop s2.length
            let d2 := r4.takeWhile Char.isDigit
            if d2 = [] then none
            else
              let r5 := r4.drop d2.length
              let s3 := r5.takeWhile jsWs
              if s3 = [] then none
              else
                let r6 := r5.drop s3.length
                if litStarts "DC".data r6 then
                  let r7 := r6.drop 2
                  let s4 := r7.takeWhile jsWs
                  if s4 = [] then none
                  else
                    let v := (r7.drop s4.length).takeWhile (fun c => c.isDigit ∨ c = '.')
                    if v = [] then none
                    else some ⟨jsParseFloat v, digitsToNat d1, digitsToNat d2⟩
                else none
  | _ => none

/-- Anchored match of the resistor pattern on a trimmed deck line
    (ngspice-interface.ts:390), with the `value *= 1000` applied when the
    captured value group contains a `k`. -/
def matchRLine (cs : List Char) : Option ResScan :=
  match cs with
  | 'R' :: rest =>
    let w := rest.takeWhile isWordChar
    if w = [] then none
    else
      let r1 := rest.drop w.length
      let s1 := r1.takeWhile jsWs
      if s1 = [] then none
      else
        let r2 := r1.drop s1.length
        let d1 := r2.takeWhile Char.isDigit
        if d1 = [] then none
        else
          let r3 := r2.drop d1.length
          let s2 := r3.takeWhile jsWs
          if s2 = [] then none
          else
            let r4 := r3.drop s2.length
            let d2 := r4.takeWhile Char.isDigit
            if d2 = [] then none
            else
              let r5 := r4.drop d2.length
              let s3 := r5.takeWhile jsWs
              if s3 = [] then none
              else
                let r6 := r5.drop s3.length
                let g := r6.takeWhile (fun c => c.isDigit ∨ c = '.')
                if g = [] then none
                else
                  let g3 :=
                    match r6.drop g.length with
                    | 'k' :: _ => g ++ ['k']
                    | _ => g
                  let base := jsParseFloat g3
                  let value :=
                    if g3.contains 'k' then base.map (fun x => x * 1000) else base
                  some ⟨value, digitsToNat d1, digitsToNat d2⟩
  | _ => none

/-- The deck scan of `performBasicCircuitAnalysis`
    (ngspice-interface.ts:376): last matching line of each kind wins. -/
def scanDeck (nl : String) : Option VSrcScan × Option ResScan :=
  (splitNl nl).foldl
    (fun acc line =>
      let t := jsTrim line.data
      let acc1 :=
        match matchVLine t with
        | some v => (some v, acc.2)
        | none => acc
      match matchRLine t with
      | some r => (acc1.1, some r)
      | none => acc1)
    (none, none)

/-- `performBasicCircuitAnalysis` (ngspice-interface.ts:362): Ohm's-law
    fallback for a deck holding one DC source and one resistor, otherwise
    an empty result (still carrying the two-sample time axis). -/
def performBasicCircuitAnalysis (lastNetlist : Option String) :
    List (String × Option ℚ) × TransientData :=
  match lastNetlist with
  | none => ([], ⟨[], [], []⟩)
  | some nl =>
    match scanDeck nl with
    | (some vs, some rr) =>
      let current : Option ℚ :=
        match vs.value, rr.value with
        | some v, some r => some (v / r)
        | _, _ => none
      let op := setAssoc (setAssoc (setAssoc [] ("v_" ++ toString vs.pos) vs.value)
        ("v_" ++ toString vs.neg) (some 0)) "i_vv1" current
      let volts := setAssoc (setAssoc [] (toString vs.pos) [vs.value, vs.value])
        (toString vs.neg) [some 0, some 0]
      (op, ⟨[0, 1 / 1000], volts, [("vv1", [current, current])]⟩)
    | _ => ([], ⟨[0, 1 / 1000], [], []⟩)

/-- `Object.keys(result.operatingPoint).length === 0` guard (with the
    missing-field case). -/
def opEmpty : Option (List (String × Option ℚ)) → Bool
  | none => true
  | some l => l.length = 0

/-- The decode path of the `close` handler of `runNgSpice` with exit code
    0 (ngspice-interface.ts:216-248): parse, re-attach a transient only
    when it has more than two points, then either spread the parsed result
    or fall back to the basic analysis — in both cases with
    `success: true` and no error field. -/
def decodeOutput (stdout : String) (lastNetlist : Option String) : NgResult :=
  let parsed0 := parseNgSpiceOutput stdout
  let td := parseTransientData stdout
  let parsed :=
    match td with
    | some t => if t.time.length > 2 then { parsed0 with transientData := some t } else parsed0
    | none => parsed0
  if opEmpty parsed.operatingPoint then
    let fb := performBasicCircuitAnalysis lastNetlist
    { success := true, operatingPoint := some fb.1, transientData := some fb.2, error := none }
  else
    { success := true, operatingPoint := parsed.operatingPoint,
      transientData := parsed.transientData, error := none }

/-! ## Concrete circuits and engine outputs used by the claim instances -/

/-- A resistor from net `"A"` to ground followed by a junction component
    (kind `"node"`) bridging nets `"A"` and `"B"`. -/
def c1Comps : List SComponent :=
  [{ ref := "R1", kind := "resistor", value := some "1k",
     pins := [("1", ⟨"A"⟩), ("2", ⟨"0"⟩)] },
   { ref := "J1", kind := "node", pins := [("a", ⟨"A"⟩), ("b", ⟨"B"⟩)] }]

/-- Battery-plus-resistor circuit used as a concrete instance by several
    witnesses. -/
def vrComps : List SComponent :=
  [{ ref := "V1", kind := "battery", value := some "5",
     pins := [("1", ⟨"0"⟩), ("2", ⟨"A"⟩)] },
   { ref := "R1", kind := "resistor", value := some "1k",
     pins := [("1", ⟨"A"⟩), ("2", ⟨"0"⟩)] }]

/-- The ordered list of nets wired to the pins that the dispatch of
    `generateSimpleSpiceNetlist` requires for a two- or three-terminal
    component, in the order the emitter touches them (`some` exactly when
    every required pin is present). -/
def requiredNets (c : SComponent) : Option (List String) :=
  match c.kind with
  | "resistor" =>
    match pinNet c "1", pinNet c "2" with
    | some a, some b => some [a, b]
    | _, _ => none
  | "capacitor" =>
    match pinNet c "1", pinNet c "2" with
    | some a, some b => some [a, b]
    | _, _ => none
  | "led" =>
    match pinNet c "1", pinNet c "2" with
    | some a, some b => some [a, b]
    | _, _ => none
  | "diode" =>
    match pinNet c "1", pinNet c "2" with
    | some a, some b => some [a, b]
    | _, _ => none
  | "battery" =>
    match pinNet c "2", pinNet c "1" with
    | some p, some n => some [p, n]
    | _, _ => none
  | "transistor" =>
    match pinNet c "C", pinNet c "B", pinNet c "E" with
    | some x, some y, some z => some [x, y, z]
    | _, _, _ => none
  | _ => none

/-- The device line each dispatch branch emits, as a function of the node
    indices assigned to the component's required nets. -/
def deviceLine (c : SComponent) (ns : List Nat) : String :=
  match c.kind with
  | "resistor" =>
    resLine (refOr c.ref "R?") (ns.getD 0 0) (ns.getD 1 0)
      (parseValue (some (c.value.getD "1k")) 1000)
  | "capacitor" =>
    capLine (refOr c.ref "C?") (ns.getD 0 0) (ns.getD 1 0)
      (parseValue (some (c.value.getD "1u")) (1 / 1000000))
  | "led" => diodeLine (refOr c.ref "D?") (ns.getD 0 0) (ns.getD 1 0) (modelOr c.model "D1N4148")
  | "diode" => diodeLine (refOr c.ref "D?") (ns.getD 0 0) (ns.getD 1 0) (modelOr c.model "D1N4148")
  | "battery" =>
    vsourceLine (refOr c.ref "V?") (ns.getD 0 0) (ns.getD 1 0)
      (parseValue (some (c.value.getD "5")) 5)
  | "transistor" =>
    npnLine (refOr c.ref "Q?") (ns.getD 0 0) (ns.getD 1 0) (ns.getD 2 0)
      (pickBjtModel c.model c.ref)
  | _ => ""

/-- C10 witness component: a resistor whose pin 1 carries the whitespace
    net `" "`. -/
def c10Comp : SComponent :=
  { ref := "R1", kind := "resistor", value := some "1k",
    pins := [("1", ⟨" "⟩), ("2", ⟨"B"⟩)] }

/-- C6 counterexample input: an operating-point line followed by a
    two-row `Variables`/`Values` transient block. -/
def c6Stdout : String :=
  "v(1) = 5.0\nplotname: Transient Analysis\nVariables:\n0 time time\n1 v(1) voltage\nValues:\n0.0 5.0\n0.001 5.0\n"

/-- 101 data rows for the custom tabular format. -/
def rows101 : String :=
  String.intercalate "\n" ((List.range 101).map (fun i => toString i ++ " 1.0 2.0"))

/-! ## Invariants of the net-to-node map -/

/-- The invariant maintained by the emission pass: the node indices are
    exactly `0, 1, …, K` in insertion order, the net names are distinct,
    and the pre-seeded ground entry `("0", 0)` sits first. -/
def MapInv (m : NetMap) : Prop :=
  netVals m = List.range m.length ∧ (netKeys m).Nodup ∧ m.head? = some ("0", 0)

theorem lookupNet_none_not_mem {m : NetMap} {k : String}
    (h : lookupNet m k = none) : k ∉ netKeys m := by
  induction m with
  | nil => simp [netKeys]
  | cons e rest ih =>
    obtain ⟨k0, v0⟩ := e
    simp only [netKeys, List.map_cons, List.mem_cons]
    by_cases hk : k0 = k
    · simp [lookupNet, hk] at h
    · simp only [lookupNet, hk, if_false] at h
      push_neg
      exact ⟨fun hkk => hk hkk.symm, ih h⟩

theorem lookupNet_mem_vals {m : NetMap} {k : String} {v : Nat}
    (h : lookupNet m k = some v) : v ∈ netVals m := by
  induction m with
  | nil => simp [lookupNet] at h
  | cons e rest ih =>
    obtain ⟨k0, v0⟩ := e
    simp only [netVals, List.map_cons, List.mem_cons]
    by_cases hk : k0 = k
    · simp only [lookupNet, hk, if_true, Option.some.injEq] at h
      exact Or.inl h.symm
    · simp only [lookupNet, hk, if_false] at h
      exact Or.inr (ih h)

theorem maxVal_range (n : Nat) : maxVal (List.range (n + 1)) = n := by
  induction n with
  | zero => decide
  | succ n ih =>
    have h2 : List.range (n + 1 + 1) = List.range (n + 1) ++ [n + 1] := by
      exact List.range_succ _
    rw [maxVal, h2, List.foldl_append]
    simp only [List.foldl]
    rw [maxVal] at ih
    rw [ih]
    exact Nat.max_eq_right (Nat.le_succ n)

theorem touch_inv {m : NetMap} (name : String) (h : MapInv m) :
    MapInv (touch m name).2 := by
  obtain ⟨hvals, hkeys, hhead⟩ := h
  have hne : m ≠ [] := by
    intro hm
    rw [hm] at hhead
    simp at hhead
  unfold touch
  by_cases hz : normalizeNet name = "" ∨ normalizeNet name = "0"
  · simp only [hz, if_true]
    exact ⟨hvals, hkeys, hhead⟩
  · simp only [hz, if_false]
    set n := normalizeNet name with hn
    cases hl : lookupNet m n with
    | some v => exact ⟨hvals, hkeys, hhead⟩
    | none =>
      have hmax : (if m = [] then 1 else maxVal (netVals m) + 1) = m.length := by
        have hlen : m.length = (m.length - 1) + 1 := by
          cases m with
          | nil => exact absurd rfl hne
          | cons a l => simp
        rw [if_neg hne, hvals, hlen, maxVal_range]
      show MapInv ((m ++ [(n, if m = [] then 1 else maxVal (netVals m) + 1)] : NetMap))
      rw [hmax]
      refine ⟨?_, ?_, ?_⟩
      · show netVals (m ++ [(n, m.length)]) = List.range (m ++ [(n, m.length)]).length
        have hv : netVals (m ++ [(n, m.length)]) = netVals m ++ [m.length] := by
          simp [netVals]
        rw [hv, hvals]
        have h2 : List.range (m.length + 1) = List.range m.length ++ [m.length] := by
          exact List.range_succ _
        rw [← h2]
        simp
      · show (netKeys (m ++ [(n, m.length)])).Nodup
        have hnm : n ∉ netKeys m := lookupNet_none_not_mem hl
        have hk2 : netKeys (m ++ [(n, m.length)]) = netKeys m ++ [n] := by
          simp [netKeys]
        rw [hk2, List.nodup_append]
        refine ⟨hkeys, List.nodup_singleton n, ?_⟩
        intro a ha hb
        simp only [List.mem_singleton] at hb
        exact hnm (hb ▸ ha)
      · show (m ++ [(n, m.length)]).head? = some ("0", 0)
        cases m with
        | nil => exact absurd rfl hne
        | cons a l => simpa using hhead

theorem processComponent_inv {m : NetMap} (c : SComponent) (h : MapInv m) :
    MapInv (processComponent m c).2 := by
  unfold processComponent
  split
  · exact h
  · split <;> dsimp only <;>
      first
      | exact h
      | (split
         · exact touch_inv _ (touch_inv _ h)
         · exact h)
      | (split
         · exact touch_inv _ (touch_inv _ (touch_inv _ h))
         · exact h)

theorem emitLoop_inv (comps : List SComponent) (acc : List String × NetMap)
    (h : MapInv acc.2) :
    MapInv (comps.foldl
      (fun acc c =>
        let (ls, m2) := processComponent acc.2 c
        (acc.1 ++ ls, m2)) acc).2 := by
  induction comps generalizing acc with
  | nil => exact h
  | cons c rest ih =>
    simp only [List.foldl]
    exact ih _ (processComponent_inv c h)

theorem generate_inv (comps : List SComponent) :
    MapInv (generateSimpleSpiceNetlist comps).2 := by
  unfold generateSimpleSpiceNetlist
  exact emitLoop_inv comps (["Simple Circuit", ""], [("0", 0)]) ⟨by decide, by decide, rfl⟩

theorem lookup_inj_of_vals_nodup {m : NetMap} (hnd : (netVals m).Nodup)
    {k1 k2 : String} {v : Nat} (h1 : lookupNet m k1 = some v)
    (h2 : lookupNet m k2 = some v) : k1 = k2 := by
  induction m with
  | nil => simp [lookupNet] at h1
  | cons e rest ih =>
    obtain ⟨k0, v0⟩ := e
    simp only [netVals, List.map_cons, List.nodup_cons] at hnd
    by_cases e1 : k0 = k1 <;> by_cases e2 : k0 = k2
    · exact e1.symm.trans e2
    · exfalso
      simp only [lookupNet, e1, if_true, Option.some.injEq] at h1
      simp only [lookupNet, e2, if_false] at h2
      exact hnd.1 (by rw [h1]; exact lookupNet_mem_vals h2)
    · exfalso
      simp only [lookupNet, e2, if_true, Option.some.injEq] at h2
      simp only [lookupNet, e1, if_false] at h1
      exact hnd.1 (by rw [h2]; exact lookupNet_mem_vals h1)
    · simp only [lookupNet, e1, if_false] at h1
      simp only [lookupNet, e2, if_false] at h2
      exact ih hnd.2 h1 h2

theorem mapinv_zero {m : NetMap} (h : MapInv m) :
    lookupNet m "0" = some 0 ∧ ∀ k, lookupNet m k = some 0 → k = "0" := by
  obtain ⟨hvals, hkeys, hhead⟩ := h
  cases m with
  | nil => simp at hhead
  | cons e t =>
    obtain rfl : e = ("0", 0) := by simpa using hhead
    constructor
    · simp [lookupNet]
    · intro k hk
      by_cases hk0 : k = "0"
      · exact hk0
      · exfalso
        have hkt : lookupNet t k = some 0 := by
          have hne : ¬ ("0" : String) = k := fun h => hk0 h.symm
          simpa [lookupNet, hne] using hk
        have h0 : (0 : Nat) ∈ netVals t := lookupNet_mem_vals hkt
        have hv : (0 :: netVals t : List Nat) = List.range (t.length + 1) := by
          simpa [netVals] using hvals
        rw [List.range_succ_eq_map] at hv
        have ht : netVals t = (List.range t.length).map Nat.succ := by
          injection hv
        rw [ht] at h0
        simp at h0

/-- Allocation case of `touch`: a fresh, non-ground, non-blank normalized
    name is appended with index `max(existing) + 1` (which is also the
    value the `used.length === 0` branch yields on an empty map). -/
theorem touch_alloc (m : NetMap) (name : String)
    (h1 : normalizeNet name ≠ "") (h2 : normalizeNet name ≠ "0")
    (h3 : lookupNet m (normalizeNet name) = none) :
    touch m name =
      (maxVal (netVals m) + 1, m ++ [(normalizeNet name, maxVal (netVals m) + 1)]) := by
  unfold touch
  rw [if_neg (by tauto), h3]
  cases m with
  | nil => rfl
  | cons a l => rw [if_neg (by simp)]

/-! ## Claim theorems -/

/-- C1: the claim says a junction (kind `"node"`) bridging nets `"A"` and
    `"B"` makes both names resolve to the same node index in the returned
    `netToNodeMap`.  In the code `"node"` is a member of
    `DISPLAY_ONLY_TYPES`, so the junction component is skipped before the
    `case "node"` merge branch can run: the returned map of the claim's
    own example circuit contains no entry for `"B"` at all, contradicting
    the merge documented inside that branch. -/
theorem c1_junction_bridging_dead_code :
    DISPLAY_ONLY_TYPES.contains "node" = true ∧
    (generateSimpleSpiceNetlist c1Comps).2 = [("0", 0), ("A", 1)] ∧
    lookupNet (generateSimpleSpiceNetlist c1Comps).2 "B" = none :=
  ⟨by decide, by decide, by decide⟩

/-- C2: in the map returned by `generateSimpleSpiceNetlist`, the
    normalized ground name `"0"` maps to node index 0 and no other key
    maps to 0. -/
theorem c2_ground_maps_to_zero_only (comps : List SComponent) :
    lookupNet (generateSimpleSpiceNetlist comps).2 "0" = some 0 ∧
    ∀ k, lookupNet (generateSimpleSpiceNetlist comps).2 k = some 0 → k = "0" :=
  mapinv_zero (generate_inv comps)

theorem c2_ground_maps_to_zero_only_witness :
    lookupNet (generateSimpleSpiceNetlist vrComps).2 "0" = some 0 ∧ ("0" : String) = "0" :=
  ⟨(c2_ground_maps_to_zero_only vrComps).1,
   (c2_ground_maps_to_zero_only vrComps).2 "0" (by decide)⟩

/-- C3: `touch` first normalizes its argument; a blank or ground result
    returns 0 with the map unchanged; an already-mapped name returns its
    existing index with the map unchanged; otherwise the index
    `max(existing indices) + 1` is recorded and returned — which is 1 when
    only the pre-seeded ground entry exists. -/
theorem c3_touch_spec (m : NetMap) (name : String) :
    (normalizeNet name = "" ∨ normalizeNet name = "0" → touch m name = (0, m)) ∧
    (∀ i, normalizeNet name ≠ "" → normalizeNet name ≠ "0" →
      lookupNet m (normalizeNet name) = some i → touch m name = (i, m)) ∧
    (normalizeNet name ≠ "" → normalizeNet name ≠ "0" →
      lookupNet m (normalizeNet name) = none →
      touch m name =
        (maxVal (netVals m) + 1, m ++ [(normalizeNet name, maxVal (netVals m) + 1)])) ∧
    (m = [("0", 0)] → normalizeNet name ≠ "" → normalizeNet name ≠ "0" →
      lookupNet m (normalizeNet name) = none →
      touch m name = (1, [("0", 0), (normalizeNet name, 1)])) := by
  refine ⟨?_, ?_, ?_, ?_⟩
  · intro h
    unfold touch
    rw [if_pos h]
  · intro i h1 h2 h3
    unfold touch
    rw [if_neg (by tauto), h3]
  · intro h1 h2 h3
    exact touch_alloc m name h1 h2 h3
  · intro hm h1 h2 h3
    subst hm
    exact touch_alloc _ name h1 h2 h3

theorem c3_touch_spec_witness :
    touch [("0", 0)] "GND" = (0, [("0", 0)]) ∧
    touch [("0", 0), ("A", 1)] "A" = (1, [("0", 0), ("A", 1)]) ∧
    touch [("0", 0)] "A" = (1, [("0", 0), ("A", 1)]) := by
  refine ⟨?_, ?_, ?_⟩
  · exact (c3_touch_spec [("0", 0)] "GND").1 (by decide)
  · exact (c3_touch_spec [("0", 0), ("A", 1)] "A").2.1 1 (by decide) (by decide) (by decide)
  · exact (c3_touch_spec [("0", 0)] "A").2.2.2 rfl (by decide) (by decide) (by decide)

/-- C9: the returned map is injective (no two net names share a node
    index) and its node indices are exactly `0, 1, …, K` where `K + 1` is
    the number of entries (in fact in insertion order). -/
theorem c9_netmap_injective_contiguous (comps : List SComponent) :
    (∀ k1 k2 v, lookupNet (generateSimpleSpiceNetlist comps).2 k1 = some v →
      lookupNet (generateSimpleSpiceNetlist comps).2 k2 = some v → k1 = k2) ∧
    netVals (generateSimpleSpiceNetlist comps).2 =
      List.range (generateSimpleSpiceNetlist comps).2.length := by
  obtain ⟨hvals, hkeys, hhead⟩ := generate_inv comps
  refine ⟨?_, hvals⟩
  intro k1 k2 v h1 h2
  exact lookup_inj_of_vals_nodup (by rw [hvals]; exact List.nodup_range _) h1 h2

theorem c9_netmap_injective_contiguous_witness :
    ("A" : String) = "A" ∧
    netVals (generateSimpleSpiceNetlist vrComps).2 =
      List.range (generateSimpleSpiceNetlist vrComps).2.length :=
  ⟨(c9_netmap_injective_contiguous vrComps).1 "A" "A" 1 (by decide) (by decide),
   (c9_netmap_injective_contiguous vrComps).2⟩

theorem normalizeNet_blank {x : String} (h : jsTrim x.data = []) :
    normalizeNet x = "" := by
  unfold normalizeNet
  by_cases hx : x = ""
  · rw [if_pos hx]
  · rw [if_neg hx]
    simp only [h, upperChars, List.map_nil]
    rw [if_neg (by decide)]

theorem touch_blank {x : String} (h : jsTrim x.data = []) (m : NetMap) :
    touch m x = (0, m) := by
  unfold touch
  rw [normalizeNet_blank h]
  simp

theorem lookupNet_append_ne {m : NetMap} {n k : String} {v : Nat} (h : k ≠ n) :
    lookupNet (m ++ [(n, v)]) k = lookupNet m k := by
  induction m with
  | nil =>
    have hnk : ¬ n = k := fun hh => h hh.symm
    simp [lookupNet, hnk]
  | cons e rest ih =>
    obtain ⟨k0, v0⟩ := e
    by_cases hk : k0 = k
    · simp [lookupNet, hk]
    · simp only [List.cons_append, lookupNet, hk, if_false]
      exact ih

theorem touch_lookup_empty (m : NetMap) (name : String) :
    lookupNet (touch m name).2 "" = lookupNet m "" := by
  unfold touch
  by_cases hz : normalizeNet name = "" ∨ normalizeNet name = "0"
  · rw [if_pos hz]
  · rw [if_neg hz]
    cases hl : lookupNet m (normalizeNet name) with
    | some v => rfl
    | none =>
      show lookupNet (m ++ [(normalizeNet name, _)]) "" = lookupNet m ""
      exact lookupNet_append_ne (fun hh => hz (Or.inl hh.symm))

theorem nodesOf_lookup_empty (nets : List String) (m : NetMap) :
    lookupNet (nodesOf m nets).2 "" = lookupNet m "" := by
  induction nets generalizing m with
  | nil => rfl
  | cons x xs ih =>
    show lookupNet (nodesOf (touch m x).2 xs).2 "" = lookupNet m ""
    rw [ih, touch_lookup_empty]

theorem nodesOf_blank_zero (nets : List String) (m : NetMap) (i : Nat)
    (hi : i < nets.length) (h : jsTrim (nets.get ⟨i, hi⟩).data = []) :
    (nodesOf m nets).1.get? i = some 0 := by
  induction nets generalizing m i with
  | nil => simp at hi
  | cons x xs ih =>
    cases i with
    | zero =>
      have hx : jsTrim x.data = [] := h
      show ((touch m x).1 :: (nodesOf (touch m x).2 xs).1).get? 0 = some 0
      rw [touch_blank hx]
      rfl
    | succ j =>
      have hj : j < xs.length := Nat.lt_of_succ_lt_succ hi
      show ((touch m x).1 :: (nodesOf (touch m x).2 xs).1).get? (j + 1) = some 0
      simp only [List.get?_cons_succ]
      exact ih _ j hj h

/-- C10: a required pin whose net string is non-empty but all whitespace
    does not cause the component to be skipped — the JavaScript presence
    check is mere truthiness.  Exactly one device line is emitted, built
    from the nodes `nodesOf` assigns to the required nets in touch order;
    every all-whitespace net normalizes to the blank name and is wired to
    node 0, and the map's entry for the blank name is untouched. -/
theorem c10_blank_net_grounded (m : NetMap) (c : SComponent) (nets : List String)
    (hdisp : ¬ (DISPLAY_ONLY_TYPES.contains c.kind = true ∨
      DISPLAY_ONLY_TYPES.contains (c.ctype.getD "") = true))
    (hreq : requiredNets c = some nets)
    (hne : ∀ w ∈ nets, w ≠ "") :
    (processComponent m c).1 = [deviceLine c ((nodesOf m nets).1)] ∧
    (processComponent m c).2 = (nodesOf m nets).2 ∧
    (∀ i, ∀ hi : i < nets.length, jsTrim (nets.get ⟨i, hi⟩).data = [] →
      (nodesOf m nets).1.get? i = some 0) ∧
    (∀ w ∈ nets, jsTrim w.data = [] →
      lookupNet (processComponent m c).2 (normalizeNet w) =
        lookupNet m (normalizeNet w)) := by
  obtain ⟨ref, kind, model, ctype, value, pins⟩ := c
  unfold requiredNets at hreq
  split at hreq
  · rename_i hkind
    subst hkind
    split at hreq
    · rename_i a b ha hb
      injection hreq with hnets
      subst hnets
      dsimp only at hdisp
      refine ⟨?_, ?_, fun i hi h => nodesOf_blank_zero _ m i hi h, ?_⟩
      · dsimp only [processComponent, deviceLine]
        rw [if_neg hdisp]
        simp only []
        rw [ha, hb,
          if_pos ⟨by simpa [truthy] using hne a (by simp),
            by simpa [truthy] using hne b (by simp)⟩]
        rfl
      · dsimp only [processComponent]
        rw [if_neg hdisp]
        simp only []
        rw [ha, hb,
          if_pos ⟨by simpa [truthy] using hne a (by simp),
            by simpa [truthy] using hne b (by simp)⟩]
        rfl
      · intro w hw hwt
        dsimp only [processComponent]
        rw [if_neg hdisp]
        simp only []
        rw [ha, hb,
          if_pos ⟨by simpa [truthy] using hne a (by simp),
            by simpa [truthy] using hne b (by simp)⟩]
        rw [normalizeNet_blank hwt]
        exact nodesOf_lookup_empty [a, b] m
    · exact Option.noConfusion hreq
  · rename_i hkind
    subst hkind
    split at hreq
    · rename_i a b ha hb
      injection hreq with hnets
      subst hnets
      dsimp only at hdisp
      refine ⟨?_, ?_, fun i hi h => nodesOf_blank_zero _ m i hi h, ?_⟩
      · dsimp only [processComponent, deviceLine]
        rw [if_neg hdisp]
        simp only []
        rw [ha, hb,
          if_pos ⟨by simpa [truthy] using hne a (by simp),
            by simpa [truthy] using hne b (by simp)⟩]
        rfl
      · dsimp only [processComponent]
        rw [if_neg hdisp]
        simp only []
        rw [ha, hb,
          if_pos ⟨by simpa [truthy] using hne a (by simp),
            by simpa [truthy] using hne b (by simp)⟩]
        rfl
      · intro w hw hwt
        dsimp only [processComponent]
        rw [if_neg hdisp]
        simp only []
        rw [ha, hb,
          if_pos ⟨by simpa [truthy] using hne a (by simp),
            by simpa [truthy] using hne b (by simp)⟩]
        rw [normalizeNet_blank hwt]
        exact nodesOf_lookup_empty [a, b] m
    · exact Option.noConfusion hreq
  · rename_i hkind
    subst hkind
    split at hreq
    · rename_i a b ha hb
      injection hreq with hnets
      subst hnets
      dsimp only at hdisp
      refine ⟨?_, ?_, fun i hi h => nodesOf_blank_zero _ m i hi h, ?_⟩
      · dsimp only [processComponent, deviceLine]
        rw [if_neg hdisp]
        simp only []
        rw [ha, hb,
          if_pos ⟨by simpa [truthy] using hne a (by simp),
            by simpa [truthy] using hne b (by simp)⟩]
        rfl
      · dsimp only [processComponent]
        rw [if_neg hdisp]
        simp only []
        rw [ha, hb,
          if_pos ⟨by simpa [truthy] using hne a (by simp),
            by simpa [truthy] using hne b (by simp)⟩]
        rfl
      · intro w hw hwt
        dsimp only [processComponent]
        rw [if_neg hdisp]
        simp only []
        rw [ha, hb,
          if_pos ⟨by simpa [truthy] using hne a (by simp),
            by simpa [truthy] using hne b (by simp)⟩]
        rw [normalizeNet_blank hwt]
        exact nodesOf_lookup_empty [a, b] m
    · exact Option.noConfusion hreq
  · rename_i hkind
    subst hkind
    split at hreq
    · rename_i a b ha hb
      injection hreq with hnets
      subst hnets
      dsimp only at hdisp
      refine ⟨?_, ?_, fun i hi h => nodesOf_blank_zero _ m i hi h, ?_⟩
      · dsimp only [processComponent, deviceLine]
        rw [if_neg hdisp]
        simp only []
        rw [ha, hb,
          if_pos ⟨by simpa [truthy] using hne a (by simp),
            by simpa [truthy] using hne b (by simp)⟩]
        rfl
      · dsimp only [processComponent]
        rw [if_neg hdisp]
        simp only []
        rw [ha, hb,
          if_pos ⟨by simpa [truthy] using hne a (by simp),
            by simpa [truthy] using hne b (by simp)⟩]
        rfl
      · intro w hw hwt
        dsimp only [processComponent]
        rw [if_neg hdisp]
        simp only []
        rw [ha, hb,
          if_pos ⟨by simpa [truthy] using hne a (by simp),
            by simpa [truthy] using hne b (by simp)⟩]
        rw [normalizeNet_blank hwt]
        exact nodesOf_lookup_empty [a, b] m
    · exact Option.noConfusion hreq
  · rename_i hkind
    subst hkind
    split at hreq
    · rename_i a b ha hb
      injection hreq with hnets
      subst hnets
      dsimp only at hdisp
      refine ⟨?_, ?_, fun i hi h => nodesOf_blank_zero _ m i hi h, ?_⟩
      · dsimp only [processComponent, deviceLine]
        rw [if_neg hdisp]
        simp only []
        rw [ha, hb,
          if_pos ⟨by simpa [truthy] using hne a (by simp),
            by simpa [truthy] using hne b (by simp)⟩]
        rfl
      · dsimp only [processComponent]
        rw [if_neg hdisp]
        simp only []
        rw [ha, hb,
          if_pos ⟨by simpa [truthy] using hne a (by simp),
            by simpa [truthy] using hne b (by simp)⟩]
        rfl
      · intro w hw hwt
        dsimp only [processComponent]
        rw [if_neg hdisp]
        simp only []
        rw [ha, hb,
          if_pos ⟨by simpa [truthy] using hne a (by simp),
            by simpa [truthy] using hne b (by simp)⟩]
        rw [normalizeNet_blank hwt]
        exact nodesOf_lookup_empty [a, b] m
    · exact Option.noConfusion hreq
  · rename_i hkind
    subst hkind
    split at hreq
    · rename_i x y z hx hy hz
      injection hreq with hnets
      subst hnets
      dsimp only at hdisp
      refine ⟨?_, ?_, fun i hi h => nodesOf_blank_zero _ m i hi h, ?_⟩
      · dsimp only [processComponent, deviceLine]
        rw [if_neg hdisp]
        simp only []
        rw [hx, hy, hz,
          if_pos ⟨by simpa [truthy] using hne x (by simp),
            by simpa [truthy] using hne y (by simp),
            by simpa [truthy] using hne z (by simp)⟩]
        rfl
      · dsimp only [processComponent]
        rw [if_neg hdisp]
        simp only []
        rw [hx, hy, hz,
          if_pos ⟨by simpa [truthy] using hne x (by simp),
            by simpa [truthy] using hne y (by simp),
            by simpa [truthy] using hne z (by simp)⟩]
        rfl
      · intro w hw hwt
        dsimp only [processComponent]
        rw [if_neg hdisp]
        simp only []
        rw [hx, hy, hz,
          if_pos ⟨by simpa [truthy] using hne x (by simp),
            by simpa [truthy] using hne y (by simp),
            by simpa [truthy] using hne z (by simp)⟩]
        rw [normalizeNet_blank hwt]
        exact nodesOf_lookup_empty [x, y, z] m
    · exact Option.noConfusion hreq
  · exact Option.noConfusion hreq

theorem c10_blank_net_grounded_witness :
    (processComponent [("0", 0)] c10Comp).1 = ["RR1 0 1 1000"] ∧
    (nodesOf [("0", 0)] [" ", "B"]).1.get? 0 = some 0 ∧
    lookupNet (processComponent [("0", 0)] c10Comp).2 (normalizeNet " ") =
      lookupNet [("0", 0)] (normalizeNet " ") := by
  have h := c10_blank_net_grounded [("0", 0)] c10Comp [" ", "B"] (by decide) (by decide)
    (by decide)
  refine ⟨?_, h.2.2.1 0 (by decide) (by decide), h.2.2.2 " " (by simp) (by decide)⟩
  rw [h.1]
  decide

/-! ## The quantity parser's suffix table (C4) -/

theorem digit_not_ws {c : Char} (h : c.isDigit = true) : jsWs c = false := by
  simp only [jsWs, decide_eq_false_iff_not]
  rintro (rfl | rfl | rfl | rfl | rfl | rfl) <;> exact absurd h (by decide)

theorem suf_not_ws {c : Char} (h : isSufChar c = true) : jsWs c = false := by
  simp only [jsWs, decide_eq_false_iff_not]
  rintro (rfl | rfl | rfl | rfl | rfl | rfl) <;> exact absurd h (by decide)

theorem digit_not_ohm {c : Char} (h : c.isDigit = true) : ohmChar c = false := by
  simp only [ohmChar, decide_eq_false_iff_not]
  rintro (rfl | rfl) <;> exact absurd h (by decide)

theorem suf_not_ohm {c : Char} (h : isSufChar c = true) : ohmChar c = false := by
  simp only [ohmChar, decide_eq_false_iff_not]
  rintro (rfl | rfl) <;> exact absurd h (by decide)

theorem digit_ne_underscore {c : Char} (h : c.isDigit = true) : c ≠ '_' := by
  rintro rfl
  exact absurd h (by decide)

theorem suf_ne_underscore {c : Char} (h : isSufChar c = true) : c ≠ '_' := by
  rintro rfl
  exact absurd h (by decide)

theorem dropWhile_all_false {p : Char → Bool} {cs : List Char}
    (h : ∀ c ∈ cs, p c = false) : cs.dropWhile p = cs := by
  cases cs with
  | nil => rfl
  | cons c t => simp [List.dropWhile, h c (by simp)]

theorem jsTrim_id {cs : List Char} (h : ∀ c ∈ cs, jsWs c = false) : jsTrim cs = cs := by
  unfold jsTrim
  rw [dropWhile_all_false h, dropWhile_all_false (fun c hc => h c (by simpa using hc)),
    List.reverse_reverse]

theorem stripValue_id {cs : List Char} (hws : ∀ c ∈ cs, jsWs c = false)
    (hohm : ∀ c ∈ cs, ohmChar c = false) (hund : ∀ c ∈ cs, c ≠ '_') :
    stripValue cs = cs := by
  unfold stripValue
  rw [jsTrim_id hws]
  have hf1 : (cs.filter (fun c => ¬ ohmChar c)) = cs :=
    List.filter_eq_self.mpr (fun c hc => by simp [hohm c hc])
  rw [hf1]
  have hf2 : (cs.filter (fun c => c ≠ '_')) = cs :=
    List.filter_eq_self.mpr (fun c hc => by simp [hund c hc])
  rw [hf2]
  exact List.filter_eq_self.mpr (fun c hc => by simp [hws c hc])

theorem takeWhile_all {p : Char → Bool} {xs : List Char}
    (h : ∀ c ∈ xs, p c = true) : xs.takeWhile p = xs := by
  induction xs with
  | nil => rfl
  | cons x t ih =>
    simp only [List.takeWhile, h x (by simp), List.cons.injEq, true_and]
    exact ih (fun c hc => h c (by simp [hc]))

theorem takeWhile_app {p : Char → Bool} (xs ys : List Char)
    (h1 : ∀ c ∈ xs, p c = true) (h2 : ∀ c, ys.head? = some c → p c = false) :
    (xs ++ ys).takeWhile p = xs := by
  induction xs with
  | nil =>
    cases ys with
    | nil => rfl
    | cons y t => simp [List.takeWhile, h2 y rfl]
  | cons x t ih =>
    simp only [List.cons_append, List.takeWhile, h1 x (by simp), List.cons.injEq, true_and]
    exact ih (fun c hc => h1 c (by simp [hc]))

/-- `Number` on a non-empty all-digit string is its decimal value. -/
theorem jsNumber_digits {ds : List Char} (h1 : ds ≠ [])
    (h2 : ∀ c ∈ ds, c.isDigit = true) : jsNumber ds = some (digitsToNat ds) := by
  obtain ⟨d, ds', rfl⟩ : ∃ d ds', ds = d :: ds' := by
    cases ds with
    | nil => exact absurd rfl h1
    | cons d t => exact ⟨d, t, rfl⟩
  have hd := h2 d (by simp)
  have hd1 : d ≠ '-' := by rintro rfl; exact absurd hd (by decide)
  have hd2 : d ≠ '+' := by rintro rfl; exact absurd hd (by decide)
  unfold jsNumber
  rw [if_neg (by simp)]
  simp only [splitSign, if_neg hd1, if_neg hd2]
  rw [takeWhile_all h2]
  simp only [List.drop_length]
  rw [if_neg (by simp)]
  simp only [readExp, if_true]
  simp [decValue, show digitsToNat [] = 0 from rfl]

theorem signSplit_no_sign {c : Char} {rest : List Char} (h : ¬ (c = '+' ∨ c = '-')) :
    signSplit (c :: rest) = ([], c :: rest) := by
  simp only [signSplit]
  rw [if_neg h]

theorem fracSplit_no_dot {c : Char} {rest : List Char} (h : c ≠ '.') :
    fracSplit (c :: rest) = ([], [], c :: rest) := by
  unfold fracSplit
  split
  · rename_i heq
    injection heq with hc _
    exact absurd hc h
  · rfl

theorem expSplit_no_e {c : Char} {rest : List Char} (h : ¬ (c = 'e' ∨ c = 'E')) :
    expSplit (c :: rest) = ([], c :: rest) := by
  simp only [expSplit]
  rw [if_neg h]

theorem matchValueRegex_digits {ds suf : List Char} (h1 : ds ≠ [])
    (h2 : ∀ c ∈ ds, c.isDigit = true)
    (hs : ∀ c ∈ suf, isSufChar c = true)
    (hsD : ∀ c ∈ suf, c.isDigit = false)
    (hsE : ∀ c, suf.head? = some c → c ≠ 'e' ∧ c ≠ 'E') :
    matchValueRegex (ds ++ suf) = some (ds, suf) := by
  obtain ⟨d, ds', rfl⟩ : ∃ d ds', ds = d :: ds' := by
    cases ds with
    | nil => exact absurd rfl h1
    | cons d t => exact ⟨d, t, rfl⟩
  have hd := h2 d (by simp)
  have hdpm : ¬ (d = '+' ∨ d = '-') := by
    rintro (rfl | rfl) <;> exact absurd hd (by decide)
  have htw : (d :: (ds' ++ suf)).takeWhile Char.isDigit = d :: ds' := by
    rw [← List.cons_append]
    exact takeWhile_app (d :: ds') suf h2
      (fun c hc => hsD c (by
        cases suf with
        | nil => simp at hc
        | cons y t =>
          injection hc with hy
          simp [hy]))
  have hdr : (d :: (ds' ++ suf)).drop (d :: ds').length = suf := by
    rw [← List.cons_append]
    exact List.drop_left (d :: ds') suf
  have hcore : valueRegexCore (d :: ds' ++ suf) true = some (d :: ds', suf) := by
    unfold valueRegexCore
    simp only [List.cons_append, signSplit_no_sign hdpm]
    rw [htw, hdr]
    cases suf with
    | nil =>
      simp [fracSplit, expSplit]
    | cons c rest =>
      have hc := hs c (by simp)
      have hce := hsE c rfl
      rw [fracSplit_no_dot (by rintro rfl; exact absurd hc (by decide))]
      rw [if_neg (by simp)]
      simp only [if_true]
      rw [expSplit_no_e (by rintro (rfl | rfl) <;> [exact hce.1 rfl; exact hce.2 rfl])]
      rw [takeWhile_all hs]
      simp
  unfold matchValueRegex
  rw [hcore]


/-- C4 counterexample: the claim's table makes uppercase `"M"` an alias
    for mega, but `parseValue` lower-cases the suffix before the table
    lookup, so `"1M"` parses to 0.001 (milli), not 1000000. -/
theorem c4_uppercase_M_is_milli :
    parseValue (some "1M") 0 = 1 / 1000 ∧ (1 / 1000 : ℚ) ≠ 1000000 :=
  ⟨by decide, by decide⟩

/-- C4 (amended): the quantity parser multiplies the numeric mantissa by
    the factor of its trailing alphabetic suffix — for every non-empty
    digit mantissa and every alphabetic suffix the result is the mantissa
    value times the code's table entry for the lower-cased suffix — and
    the table reads t=10^12, g=10^9, meg=10^6 (any case), k=10^3,
    (none)=1, m=10^-3, u/µ=10^-6, n=10^-9, p=10^-12, f=10^-15, with
    *both* lowercase `"m"` and uppercase `"M"` meaning milli. -/
theorem c4_suffix_table_amended :
    (∀ ds suf : List Char, ds ≠ [] → (∀ c ∈ ds, c.isDigit = true) →
      (∀ c ∈ suf, isSufChar c = true) →
      (∀ c ∈ suf, c.isDigit = false) →
      (∀ c, suf.head? = some c → c ≠ 'e' ∧ c ≠ 'E') →
      parseValue (some (String.mk (ds ++ suf))) 0 =
        (digitsToNat ds : ℚ) * suffixMult (lowerChars suf)) ∧
    parseValue (some "1k") 0 = 1000 ∧
    parseValue (some "1K") 0 = 1000 ∧
    parseValue (some "1meg") 0 = 1000000 ∧
    parseValue (some "1Meg") 0 = 1000000 ∧
    parseValue (some "1MEG") 0 = 1000000 ∧
    parseValue (some "1m") 0 = 1 / 1000 ∧
    parseValue (some "1M") 0 = 1 / 1000 ∧
    parseValue (some "1t") 0 = 1000000000000 ∧
    parseValue (some "1T") 0 = 1000000000000 ∧
    parseValue (some "1g") 0 = 1000000000 ∧
    parseValue (some "1G") 0 = 1000000000 ∧
    parseValue (some "1u") 0 = 1 / 1000000 ∧
    parseValue (some "1µ") 0 = 1 / 1000000 ∧
    parseValue (some "1n") 0 = 1 / 1000000000 ∧
    parseValue (some "1N") 0 = 1 / 1000000000 ∧
    parseValue (some "1p") 0 = 1 / 1000000000000 ∧
    parseValue (some "1f") 0 = 1 / 1000000000000000 ∧
    parseValue (some "3.3") 0 = 33 / 10 := by
  refine ⟨?_, by decide⟩
  intro ds suf h1 h2 hs hsD hsE
  have hchars : ∀ c ∈ ds ++ suf, jsWs c = false ∧ ohmChar c = false ∧ c ≠ '_' := by
    intro c hc
    rcases List.mem_append.mp hc with hc | hc
    · exact ⟨digit_not_ws (h2 c hc), digit_not_ohm (h2 c hc), digit_ne_underscore (h2 c hc)⟩
    · exact ⟨suf_not_ws (hs c hc), suf_not_ohm (hs c hc), suf_ne_underscore (hs c hc)⟩
  unfold parseValue
  simp only []
  have hstrip : stripValue (String.mk (ds ++ suf)).data = ds ++ suf :=
    stripValue_id (fun c hc => (hchars c hc).1) (fun c hc => (hchars c hc).2.1)
      (fun c hc => (hchars c hc).2.2)
  rw [hstrip, matchValueRegex_digits h1 h2 hs hsD hsE]
  simp only []
  rw [jsNumber_digits h1 h2]
  simp

theorem c4_suffix_table_amended_witness :
    parseValue (some (String.mk (['4', '7'] ++ "k".data))) 0 =
      (digitsToNat ['4', '7'] : ℚ) * suffixMult (lowerChars "k".data) ∧
    (digitsToNat ['4', '7'] : ℚ) * suffixMult (lowerChars "k".data) = 47000 :=
  ⟨c4_suffix_table_amended.1 ['4', '7'] "k".data (by decide) (by decide) (by decide)
    (by decide) (by decide), by decide⟩

/-- C5 (code_bug evidence): on the claim's delimiter-free row the greedy
    leading `(\\d+)` of `tokenizeConcatenatedLine` swallows every leading
    digit — including the integer part of the time value — and the greedy
    exponent digits of each number token then absorb the first digit of
    the following value.  The row decodes to index 4999994 with values
    [9.9983e-19, 9.9983e-20, 0], not to index 499999 with time
    4.999830e-02 and node values 4.999830e-02 and 5. -/
theorem c5_tokenizer_eval :
    tokenizeConcatenatedLine "4999994.999830e-024.999830e-025.000000e+00" =
      some (4999994, [99983 / 10 ^ 23, 99983 / 10 ^ 24, 0]) ∧
    (4999994 : Nat) ≠ 499999 := by
  constructor <;> decide

theorem ctLine_count (st : CTState) (line : String)
    (h : st.time.length = st.pointCount) :
    (ctLine st line).time.length = (ctLine st line).pointCount := by
  unfold ctLine
  simp only []
  split
  · exact h
  · split
    · exact h
    · split
      · exact h
      · exact h
      · split <;> simp [h]

theorem foldl_ctLine_count (lines : List String) (st : CTState)
    (h : st.time.length = st.pointCount) :
    ((lines.foldl ctLine st).time.length = (lines.foldl ctLine st).pointCount) := by
  induction lines generalizing st with
  | nil => exact h
  | cons l rest ih => exact ih _ (ctLine_count st l h)

/-- C6 counterexample: a `Variables`/`Values` parse with only two time
    points — at or below both thresholds in the code — is attached to the
    decoded result because `parseNgSpiceOutput` attaches it
    unconditionally once an operating-point map was found, contradicting
    the claim that such a result is reported as no transient result. -/
theorem c6_short_transient_attached :
    (decodeOutput c6Stdout (some "x")).transientData =
      some ⟨[0, 1 / 1000], [("1", [some 5, some 5])], []⟩ ∧
    ((decodeOutput c6Stdout (some "x")).transientData.map
      (fun t => t.time.length)) = some 2 := by
  constructor <;> decide

/-- C6 (amended): the custom tabular parse is accepted only with more
    than 100 data points, but whenever the line scan finds any
    operating-point entry, `parseNgSpiceOutput` attaches whatever
    `parseTransientData` returns — however short — with no length gate. -/
theorem c6_transient_acceptance_amended :
    (∀ s r, parseCustomTransientFormat s = some r → 100 < r.time.length) ∧
    (∀ s, (parseNgSpiceOutput s).operatingPoint ≠ none →
      (parseNgSpiceOutput s).transientData = parseTransientData s) := by
  constructor
  · intro s r h
    unfold parseCustomTransientFormat at h
    simp only [] at h
    split at h
    · rename_i hc
      injection h with hr
      rw [← hr]
      have := foldl_ctLine_count (splitLinesCR s) ⟨[], [], 0, 0⟩ rfl
      simpa [this] using hc
    · exact Option.noConfusion h
  · intro s h
    unfold parseNgSpiceOutput at h ⊢
    simp only [] at h ⊢
    split at h
    · rename_i hc
      rw [if_pos hc]
    · rename_i hc
      rw [if_neg hc]
      simp at h

theorem c6_transient_acceptance_amended_witness :
    (∃ r, parseCustomTransientFormat rows101 = some r ∧ 100 < r.time.length) ∧
    ((parseNgSpiceOutput "v(1) = 5.0").operatingPoint ≠ none ∧
      (parseNgSpiceOutput "v(1) = 5.0").transientData =
        parseTransientData "v(1) = 5.0") := by
  constructor
  · obtain ⟨r, hr⟩ := Option.isSome_iff_exists.mp
      (show (parseCustomTransientFormat rows101).isSome = true by decide)
    exact ⟨r, hr, c6_transient_acceptance_amended.1 rows101 r hr⟩
  · exact ⟨by decide, c6_transient_acceptance_amended.2 "v(1) = 5.0" (by decide)⟩

/-- C7 counterexample: with an undecodable engine output (empty stdout)
    and a deck whose scan finds neither the one-source-one-resistor
    topology, the decode path still resolves with `success: true`, an
    empty operating point, a two-sample empty transient and no error —
    not the `success=false` negative result the claim requires. -/
theorem c7_decode_failure_still_success :
    decodeOutput "" (some "hello") =
      { success := true, operatingPoint := some [],
        transientData := some ⟨[0, 1 / 1000], [], []⟩, error := none } ∧
    (decodeOutput "" (some "hello")).success ≠ false := by
  constructor <;> decide

/-- The operating-point field survives the conditional transient
    re-attachment of the decode path. -/
theorem reattach_preserves_op (p : ParsedOut) (td : Option TransientData) :
    (match td with
      | some t => if t.time.length > 2 then { p with transientData := some t } else p
      | none => p).operatingPoint = p.operatingPoint := by
  cases td with
  | none => rfl
  | some t =>
    by_cases h : t.time.length > 2
    · simp [h]
    · simp [h]

/-- C7 (amended): when no decoding strategy yields an operating point and
    the fallback's topology scan fails, the result is resolved with
    `success := true`, an empty operating-point map, the two-timestamp
    empty transient and no error — never `success=false`. -/
theorem c7_decode_failure_amended (stdout deck : String)
    (hop : (parseNgSpiceOutput stdout).operatingPoint = none)
    (hscan : (scanDeck deck).1 = none ∨ (scanDeck deck).2 = none) :
    decodeOutput stdout (some deck) =
      { success := true, operatingPoint := some [],
        transientData := some ⟨[0, 1 / 1000], [], []⟩, error := none } := by
  unfold decodeOutput
  simp only []
  rw [if_pos (by
    rw [reattach_preserves_op, hop]
    rfl)]
  unfold performBasicCircuitAnalysis
  simp only []
  rcases hdeck : scanDeck deck with ⟨ovs, ors⟩
  rw [hdeck] at hscan
  cases ovs with
  | none => rfl
  | some vs =>
    cases ors with
    | none => rfl
    | some rr =>
      rcases hscan with h | h <;> exact Option.noConfusion h

theorem c7_decode_failure_amended_witness :
    decodeOutput "" (some "hello") =
      { success := true, operatingPoint := some [],
        transientData := some ⟨[0, 1 / 1000], [], []⟩, error := none } :=
  c7_decode_failure_amended "" "hello" (by decide) (Or.inl (by decide))

theorem getAssoc_setAssoc_self {α : Type} (m : List (String × α)) (k : String) (v : α) :
    getAssoc (setAssoc m k v) k = some v := by
  induction m with
  | nil => simp [setAssoc, getAssoc]
  | cons e rest ih =>
    obtain ⟨k0, v0⟩ := e
    by_cases hk : k0 = k
    · simp [setAssoc, getAssoc, hk]
    · simp only [setAssoc, hk, if_false]
      simp [getAssoc, hk, ih]

/-- C8: when the engine output yields no operating-point entries and the
    deck scan finds a 5-volt DC source and a 1000-ohm resistor, the
    analytic fallback resolves a result whose operating point records the
    current 0.005 A under the source key `i_vv1`, and whose transient is
    a two-sample constant series at timestamps 0 and 0.001. -/
theorem c8_fallback_ohms_law (stdout deck : String) (vs : VSrcScan) (rr : ResScan)
    (hop : (parseNgSpiceOutput stdout).operatingPoint = none)
    (hscan : scanDeck deck = (some vs, some rr))
    (hv : vs.value = some 5) (hr : rr.value = some 1000) :
    ∃ op td, decodeOutput stdout (some deck) =
      { success := true, operatingPoint := some op,
        transientData := some td, error := none } ∧
      getAssoc op "i_vv1" = some (some (1 / 200)) ∧
      td.time = [0, 1 / 1000] ∧
      td.currents = [("vv1", [some (1 / 200), some (1 / 200)])] ∧
      (∀ kv ∈ td.voltages, ∃ x, kv.2 = [x, x]) := by
  have hval : (5 : ℚ) / 1000 = 1 / 200 := by norm_num
  unfold decodeOutput
  simp only []
  rw [if_pos (by
    rw [reattach_preserves_op, hop]
    rfl)]
  unfold performBasicCircuitAnalysis
  simp only []
  rw [hscan]
  simp only [hv, hr]
  refine ⟨_, _, rfl, ?_, rfl, ?_, ?_⟩
  · rw [getAssoc_setAssoc_self]
    rw [hval]
  · rw [hval]
  · intro kv hkv
    simp only [setAssoc] at hkv
    by_cases hk : toString vs.pos = toString vs.neg
    · rw [if_pos hk] at hkv
      rcases List.mem_singleton.mp hkv with rfl
      exact ⟨some 0, rfl⟩
    · rw [if_neg hk] at hkv
      rcases List.mem_cons.mp hkv with rfl | hkv2
      · exact ⟨some 5, rfl⟩
      · rcases List.mem_singleton.mp hkv2 with rfl
        exact ⟨some 0, rfl⟩

theorem c8_fallback_ohms_law_witness :
    ∃ op td, decodeOutput "" (some (generateSimpleSpiceNetlist vrComps).1) =
      { success := true, operatingPoint := some op,
        transientData := some td, error := none } ∧
      getAssoc op "i_vv1" = some (some (1 / 200)) ∧
      td.time = [0, 1 / 1000] ∧
      td.currents = [("vv1", [some (1 / 200), some (1 / 200)])] ∧
      (∀ kv ∈ td.voltages, ∃ x, kv.2 = [x, x]) :=
  c8_fallback_ohms_law "" (generateSimpleSpiceNetlist vrComps).1
    ⟨some 5, 1, 0⟩ ⟨some 1000, 1, 0⟩ (by decide) (by decide) rfl rfl

end CircuitSim
